import Mathlib

/-!
Verification of the AI code-review web application's core logic.

The development shallowly embeds the application's stream parser
(stream-utils, in its two source variants), the cost ledger (billing.ts),
the PR-reference extractor (github-pr.ts), the model tools (codereview
route), and the request handler (ai-handler.ts) as executable Lean
functions over lists of characters, and proves the specified properties
about them.

Conventions:
  - JavaScript strings are modelled as `List Char` (`Str`).
  - JavaScript numbers appearing in the embedded fragments are token
    counts and dollar rates; they are modelled as `Int` / `Rat` (exact
    arithmetic in place of IEEE doubles).
  - JSON numbers are modelled as integers (all numeric payloads in the
    embedded protocol are token counts).
  - External effects (file system, fetch, environment variables, the
    generateText SDK call) are modelled as explicit oracle parameters.
-/

/-- Strings of the embedded JavaScript fragments, as lists of characters. -/
abbrev Str := List Char

/-- Whitespace characters recognised by the embedding of JavaScript's
`String.prototype.trim` and of the JSON grammar. -/
def isWsChar (c : Char) : Bool :=
  c = ' ' || c = '\n' || c = '\t' || c = '\r' || c = '\x0b' || c = '\x0c'

/-- Embeds `s.trim()` (both ends). -/
def trimStr (s : Str) : Str :=
  ((s.dropWhile isWsChar).reverse.dropWhile isWsChar).reverse

/-- Embeds the truthiness test `!s.trim()` used to skip blank lines. -/
def trimEmpty (s : Str) : Bool := (trimStr s).isEmpty

/-- JSON values, as produced by the embedding of `JSON.parse`.
Numbers are restricted to integers (see module conventions). -/
inductive Json where
  | null : Json
  | bool (b : Bool) : Json
  | num (n : Int) : Json
  | str (s : Str) : Json
  | arr (elems : List Json) : Json
  | obj (fields : List (Str × Json)) : Json

/-- JavaScript truthiness of a JSON value. -/
def Json.truthy : Json → Bool
  | .null => false
  | .bool b => b
  | .num n => n ≠ 0
  | .str s => ¬ s.isEmpty
  | .arr _ => true
  | .obj _ => true

/-- Property access `o[k]` on a parsed JSON value: `none` models
`undefined` (non-objects and absent keys). A duplicated key keeps the
last binding, as `JSON.parse` does. -/
def Json.getField : Json → Str → Option Json
  | .obj fs, k => fs.foldl (fun acc f => if f.1 = k then some f.2 else acc) none
  | _, _ => none

/-- Parses the body of a JSON string literal after its opening quote;
returns the decoded content and the remainder after the closing quote. -/
def parseStrBody : Str → Option (Str × Str)
  | [] => none
  | '"' :: rest => some ([], rest)
  | '\\' :: e :: rest =>
    match e with
    | '"' => (parseStrBody rest).map (fun p => ('"' :: p.1, p.2))
    | '\\' => (parseStrBody rest).map (fun p => ('\\' :: p.1, p.2))
    | '/' => (parseStrBody rest).map (fun p => ('/' :: p.1, p.2))
    | 'n' => (parseStrBody rest).map (fun p => ('\n' :: p.1, p.2))
    | 't' => (parseStrBody rest).map (fun p => ('\t' :: p.1, p.2))
    | 'r' => (parseStrBody rest).map (fun p => ('\r' :: p.1, p.2))
    | 'b' => (parseStrBody rest).map (fun p => ('\x08' :: p.1, p.2))
    | 'f' => (parseStrBody rest).map (fun p => ('\x0c' :: p.1, p.2))
    | _ => none
  | c :: rest =>
    if c = '\n' ∨ c = '\r' then none
    else (parseStrBody rest).map (fun p => (c :: p.1, p.2))

/-- Numeric value of a digit run. -/
def digitsVal (ds : Str) : Int :=
  ds.foldl (fun acc d => acc * 10 + (d.toNat - '0'.toNat : Int)) 0

/-- Parses a JSON integer literal (optional minus sign, digit run). -/
def parseNum : Str → Option (Json × Str)
  | '-' :: cs =>
    let ds := cs.takeWhile Char.isDigit
    if ds.isEmpty then none
    else some (.num (-(digitsVal ds)), cs.dropWhile Char.isDigit)
  | cs =>
    let ds := cs.takeWhile Char.isDigit
    if ds.isEmpty then none
    else some (.num (digitsVal ds), cs.dropWhile Char.isDigit)

/-- Parsing modes of the fuelled JSON parser: a whole value, the inside
of an object after its opening brace, or the inside of an array after
its opening bracket. -/
inductive JMode where
  | top : JMode
  | objBody : JMode
  | arrBody : JMode

/-- Fuelled JSON parser, embedding `JSON.parse`'s grammar (with numbers
restricted to integers and string escapes to the non-`\u` ones).
Every recursive call consumes one unit of fuel; at most two units are
spent per input character, so `parseJson` supplies ample fuel.
Structural recursion on the fuel keeps the definition kernel-computable. -/
def parseValM : Nat → JMode → Str → Option (Json × Str)
  | 0, _, _ => none
  | fuel + 1, .top, cs0 =>
    match cs0.dropWhile isWsChar with
    | 'n' :: 'u' :: 'l' :: 'l' :: rest => some (.null, rest)
    | 't' :: 'r' :: 'u' :: 'e' :: rest => some (.bool true, rest)
    | 'f' :: 'a' :: 'l' :: 's' :: 'e' :: rest => some (.bool false, rest)
    | '"' :: rest => (parseStrBody rest).map (fun p => (.str p.1, p.2))
    | '\x7b' :: rest => parseValM fuel .objBody rest
    | '[' :: rest => parseValM fuel .arrBody rest
    | cs => parseNum cs
  | fuel + 1, .objBody, rest =>
    match rest.dropWhile isWsChar with
    | '\x7d' :: r => some (.obj [], r)
    | '"' :: r1 =>
      match parseStrBody r1 with
      | none => none
      | some (key, r2) =>
        match r2.dropWhile isWsChar with
        | ':' :: r3 =>
          match parseValM fuel .top r3 with
          | none => none
          | some (v, r4) =>
            match r4.dropWhile isWsChar with
            | '\x7d' :: r5 => some (.obj [(key, v)], r5)
            | ',' :: r5 =>
              match r5.dropWhile isWsChar with
              | '\x7d' :: _ => none
              | _ =>
                match parseValM fuel .objBody r5 with
                | some (.obj fs, r6) => some (.obj ((key, v) :: fs), r6)
                | _ => none
            | _ => none
        | _ => none
    | _ => none
  | fuel + 1, .arrBody, rest =>
    match rest.dropWhile isWsChar with
    | ']' :: r => some (.arr [], r)
    | r1 =>
      match parseValM fuel .top r1 with
      | none => none
      | some (v, r2) =>
        match r2.dropWhile isWsChar with
        | ']' :: r3 => some (.arr [v], r3)
        | ',' :: r3 =>
          match r3.dropWhile isWsChar with
          | ']' :: _ => none
          | _ =>
            match parseValM fuel .arrBody r3 with
            | some (.arr vs, r4) => some (.arr (v :: vs), r4)
            | _ => none
        | _ => none

/-- Embeds `JSON.parse(s)`: `none` models the thrown `SyntaxError`. -/
def parseJson (s : Str) : Option Json :=
  match parseValM (2 * s.length + 2) .top s with
  | some (v, rest) => if (rest.dropWhile isWsChar).isEmpty then some v else none
  | none => none

/-! ## Stream parse state (stream-utils `TokenUsage` / `StreamParseResult`) -/

/-- Normalized token usage (github-pr.ts `TokenUsage`). -/
structure TokenUsage where
  promptTokens : Int
  completionTokens : Int
  totalTokens : Int
deriving DecidableEq

/-- Accumulated stream parse state (stream-utils `StreamParseResult`). -/
structure StreamParseResult where
  text : Str
  usage : Option TokenUsage
deriving DecidableEq

/-- Initial parse state: `{ text: '', usage: null }`. -/
def initResult : StreamParseResult := ⟨[], none⟩

/-- Property access with a Lean string key. -/
def jfield (d : Json) (k : String) : Option Json := d.getField k.data

/-- Truthiness of a possibly-undefined value. -/
def otruthy : Option Json → Bool
  | some v => v.truthy
  | none => false

/-- Embeds the strict comparison `data.type === t` for a string literal `t`. -/
def typeIs (d : Json) (t : String) : Bool :=
  match jfield d "type" with
  | some (.str s) => s = t.data
  | _ => false

/-- String content of a possibly-undefined value (non-strings yield the
empty string; all text payloads of the embedded protocol are strings). -/
def strOf : Option Json → Str
  | some (.str s) => s
  | _ => []

/-- Numeric content of a possibly-undefined value for the `??` chains:
`none` models nullish (absent, `null`, or — per the module conventions —
non-numeric). -/
def numOf : Option Json → Option Int
  | some (.num n) => some n
  | _ => none

/-- Usage normalization of a `finish` event payload (stream-utils):
`promptTokens ?? inputTokens ?? 0`, `completionTokens ?? outputTokens ?? 0`,
and `totalTokens` defaulted to the sum of the two. -/
def finishUsage (u : Json) : TokenUsage :=
  let p := ((numOf (jfield u "promptTokens")).orElse
    (fun _ => numOf (jfield u "inputTokens"))).getD 0
  let c := ((numOf (jfield u "completionTokens")).orElse
    (fun _ => numOf (jfield u "outputTokens"))).getD 0
  ⟨p, c, (numOf (jfield u "totalTokens")).getD (p + c)⟩

/-- Usage normalization of a `metadata.usage` payload (stream-utils):
same shape but without the `inputTokens`/`outputTokens` aliases. -/
def metadataUsage (u : Json) : TokenUsage :=
  let p := (numOf (jfield u "promptTokens")).getD 0
  let c := (numOf (jfield u "completionTokens")).getD 0
  ⟨p, c, (numOf (jfield u "totalTokens")).getD (p + c)⟩

/-- The optional chain `data.metadata?.usage`. -/
def metaUsageField (data : Json) : Option Json :=
  match jfield data "metadata" with
  | some m => m.getField "usage".data
  | none => none

/-- Embeds `extractFromStreamData` of the numbered-format stream-utils
variant: a `text-delta` event appends, a `text` event replaces the
accumulated text wholesale, a `finish` event and `metadata.usage`
normalize token usage. -/
def extractFromStreamData (data : Json) (r : StreamParseResult) :
    StreamParseResult :=
  let text := r.text
  let usage := r.usage
  let text :=
    if typeIs data "text-delta" && otruthy (jfield data "textDelta") then
      text ++ strOf (jfield data "textDelta")
    else text
  let text :=
    if typeIs data "text" && otruthy (jfield data "text") then
      strOf (jfield data "text")
    else text
  let usage :=
    if typeIs data "finish" && otruthy (jfield data "usage") then
      some (finishUsage ((jfield data "usage").getD .null))
    else usage
  let usage :=
    if otruthy (metaUsageField data) then
      some (metadataUsage ((metaUsageField data).getD .null))
    else usage
  ⟨text, usage⟩

/-- Text contributed by one element of a `content` array (SSE variant):
parts typed `text` contribute `part.text || part.textDelta || ''`. -/
def contentPartText (p : Json) : Str :=
  if typeIs p "text" then
    if otruthy (jfield p "text") then strOf (jfield p "text")
    else if otruthy (jfield p "textDelta") then strOf (jfield p "textDelta")
    else []
  else []

/-- Embeds `extractFromStreamData` of the SSE-capable stream-utils
variant: like the numbered-format one, plus appending `text-chunk`
events and `content` arrays. -/
def extractFromStreamDataSse (data : Json) (r : StreamParseResult) :
    StreamParseResult :=
  let text := r.text
  let usage := r.usage
  let text :=
    if typeIs data "text-delta" && otruthy (jfield data "textDelta") then
      text ++ strOf (jfield data "textDelta")
    else text
  let text :=
    if typeIs data "text" && otruthy (jfield data "text") then
      strOf (jfield data "text")
    else text
  let text :=
    if typeIs data "text-chunk" && otruthy (jfield data "text") then
      text ++ strOf (jfield data "text")
    else text
  let text :=
    match jfield data "content" with
    | some (.arr parts) =>
      let tp := (parts.map contentPartText).flatten
      if tp.isEmpty then text else text ++ tp
    | _ => text
  let usage :=
    if typeIs data "finish" && otruthy (jfield data "usage") then
      some (finishUsage ((jfield data "usage").getD .null))
    else usage
  let usage :=
    if otruthy (metaUsageField data) then
      some (metadataUsage ((metaUsageField data).getD .null))
    else usage
  ⟨text, usage⟩

/-! ## Line parsing (stream-utils `parseStreamLine`, both variants) -/

/-- Embeds the regex match `^\d+:(.*)$` (no `m` flag: `.` cannot cross a
newline and `$` anchors at the end of the string, so a subject containing
a newline after the colon never matches). Returns the capture group. -/
def numberedSplit (l : Str) : Option Str :=
  let ds := l.takeWhile Char.isDigit
  if ds.isEmpty then none
  else
    match l.dropWhile Char.isDigit with
    | ':' :: rest => if rest.contains '\n' then none else some rest
    | _ => none

/-- Strips an exact (case-sensitive) literal. -/
def stripLit : Str → Str → Option Str
  | [], cs => some cs
  | _, [] => none
  | p :: ps, c :: cs => if c = p then stripLit ps cs else none

/-- Embeds the regex match `^data:\s*(.*)$`: after the literal `data:`,
the greedy `\s*` takes the maximal whitespace run and the capture `.*`
must reach the end of the string without crossing a newline. -/
def dataColonSplit (l : Str) : Option Str :=
  match stripLit "data:".data l with
  | some after =>
    let rest := after.dropWhile isWsChar
    if rest.contains '\n' then none else some rest
  | none => none

/-- Embeds `parseStreamLine` of the numbered-format variant: blank lines
and lines without the `digits:` shape yield `null`, and malformed JSON
is silently discarded. -/
def parseStreamLine (l : Str) : Option Json :=
  if trimEmpty l then none
  else
    match numberedSplit l with
    | some js => parseJson js
    | none => none

/-- Embeds `parseStreamLine` of the SSE-capable variant: the `data:`
framing is tried first (with the payload trimmed and an empty payload
yielding `null`), then the numbered framing. -/
def parseStreamLineSse (l : Str) : Option Json :=
  if trimEmpty l then none
  else
    match dataColonSplit l with
    | some js =>
      let t := trimStr js
      if t.isEmpty then none else parseJson t
    | none =>
      match numberedSplit l with
      | some js => parseJson js
      | none => none

/-- One line of the numbered-variant loop body: `if (data)` guards on
the truthiness of the parsed value before extracting. -/
def procLine (r : StreamParseResult) (l : Str) : StreamParseResult :=
  match parseStreamLine l with
  | some d => if d.truthy then extractFromStreamData d r else r
  | none => r

/-- One line of the SSE-variant loop body. -/
def procLineSse (r : StreamParseResult) (l : Str) : StreamParseResult :=
  match parseStreamLineSse l with
  | some d => if d.truthy then extractFromStreamDataSse d r else r
  | none => r

/-! ## Buffer splitting (the `split('\n')` / `split('\n\n')` steps) -/

/-- Prepends a character to the first piece of a split. -/
def consHead (c : Char) : List Str → List Str
  | [] => [[c]]
  | l :: ls => (c :: l) :: ls

/-- Embeds `buffer.split('\n')` (always returns at least one piece). -/
def splitNL : Str → List Str
  | [] => [[]]
  | c :: cs => if c = '\n' then [] :: splitNL cs else consHead c (splitNL cs)

/-- Embeds `buffer.split('\n\n')` (leftmost, non-overlapping). -/
def splitNN : Str → List Str
  | '\n' :: '\n' :: cs => [] :: splitNN cs
  | c :: cs => consHead c (splitNN cs)
  | [] => [[]]

/-- All pieces but the last — what the loop processes after `pop()`. -/
def frontLines : List Str → List Str
  | [] => []
  | [_] => []
  | l :: ls => l :: frontLines ls

/-- The last piece — what `pop() || ''` keeps as the new buffer. -/
def lastLine : List Str → Str
  | [] => []
  | [l] => l
  | _ :: ls => lastLine ls

/-- Embeds `processStreamBuffer` of the numbered-format variant: split
the buffer into lines, retain the final (possibly incomplete) line, and
run every complete line through the per-line logic. -/
def processStreamBuffer (buffer : Str) (r : StreamParseResult) :
    Str × StreamParseResult :=
  let lines := splitNL buffer
  (lastLine lines, (frontLines lines).foldl procLine r)

/-- Embeds `processRemainingBuffer` of the numbered-format variant. -/
def processRemainingBuffer (buffer : Str) (r : StreamParseResult) :
    StreamParseResult :=
  if trimEmpty buffer then r
  else
    match parseStreamLine buffer with
    | some d => if d.truthy then extractFromStreamData d r else r
    | none => r

/-- Embeds `processStreamBuffer` of the SSE-capable variant: split on
blank lines first; only when that produces more than one piece are the
complete blocks processed (each block line-by-line), otherwise fall back to
single-newline splitting. -/
def processStreamBufferSse (buffer : Str) (r : StreamParseResult) :
    Str × StreamParseResult :=
  let events := splitNN buffer
  if 1 < events.length then
    (lastLine events,
      (frontLines events).foldl
        (fun acc ev => (splitNL ev).foldl procLineSse acc) r)
  else
    let lines := splitNL buffer
    (lastLine lines, (frontLines lines).foldl procLineSse r)

/-- Embeds `processRemainingBuffer` of the SSE-capable variant. -/
def processRemainingBufferSse (buffer : Str) (r : StreamParseResult) :
    StreamParseResult :=
  if trimEmpty buffer then r
  else
    match parseStreamLineSse buffer with
    | some d => if d.truthy then extractFromStreamDataSse d r else r
    | none => r

/-! ## The chunk loop of `transformStreamToCollectData` -/

/-- One iteration of the read loop (numbered variant): append the chunk
to the pending buffer and process the complete lines. -/
def stepChunk (s : Str × StreamParseResult) (chunk : Str) :
    Str × StreamParseResult :=
  processStreamBuffer (s.1 ++ chunk) s.2

/-- One iteration of the read loop (SSE variant). -/
def stepChunkSse (s : Str × StreamParseResult) (chunk : Str) :
    Str × StreamParseResult :=
  processStreamBufferSse (s.1 ++ chunk) s.2

/-- Runs the whole stream (a finite list of decoded chunks) through the
numbered-variant loop, flushing the trailing buffer at stream end. -/
def parseChunks (chunks : List Str) : StreamParseResult :=
  let s := chunks.foldl stepChunk ([], initResult)
  processRemainingBuffer s.1 s.2

/-- Runs the whole stream through the SSE-variant loop. -/
def parseChunksSse (chunks : List Str) : StreamParseResult :=
  let s := chunks.foldl stepChunkSse ([], initResult)
  processRemainingBufferSse s.1 s.2

/-- Sequential model of `transformStreamToCollectData` (numbered
variant) on an upstream that is read to its natural end: returns the
chunks forwarded to the consumer and the list of completion-callback
invocations (the code calls `onComplete(result)` unconditionally after
the loop). -/
def transformStreamToCollectData (chunks : List Str) :
    List Str × List StreamParseResult :=
  let s := chunks.foldl stepChunk ([], initResult)
  (chunks, [processRemainingBuffer s.1 s.2])

/-- Sequential model of `transformStreamToCollectData` of the SSE
variant: the callback is guarded by `if (result.text)`, so it fires only
when the accumulated text is non-empty. -/
def transformStreamToCollectDataSse (chunks : List Str) :
    List Str × List StreamParseResult :=
  let s := chunks.foldl stepChunkSse ([], initResult)
  let final := processRemainingBufferSse s.1 s.2
  (chunks, if final.text.isEmpty then [] else [final])

/-! ## Consumer cancellation of the relay streams

Each relay returns `new ReadableStream(src)` for an underlying-source
object literal `src`. When the consumer cancels the returned stream, the
streams standard runs `src.cancel` if that member exists and otherwise
does nothing; in particular the upstream `reader` obtained by
`stream.getReader()` is cancelled only if a `cancel` member calls
`reader.cancel()`. The two relays differ exactly here, so the
descriptors and the stopped pump runs are embedded explicitly. -/

/-- What a relay's `cancel` member does with the upstream reader. The
only handler occurring in the sources is the SSE variant's
`cancel() \x7b reader.cancel().catch(() => \x7b\x7d); \x7d`, which
requests cancellation of the upstream reader. -/
inductive CancelAct where
  | cancelUpstream : CancelAct

/-- The underlying-source object literal of a relay, reduced to its
`cancel` member: `none` when the literal has no `cancel` property. -/
structure RelaySource where
  cancelMember : Option CancelAct

/-- The numbered-variant relay's underlying source: the object literal
passed to `new ReadableStream` has only `async start(controller)` and
no `cancel` member. -/
def collectDataSource : RelaySource := ⟨none⟩

/-- The SSE-variant relay's underlying source: besides `start`, the
object literal carries a `cancel()` member that calls
`reader.cancel()` on the upstream reader. -/
def collectDataSourceSse : RelaySource := ⟨some CancelAct.cancelUpstream⟩

/-- The upstream reader as seen by the cancellation path: whether
`reader.cancel()` has been requested on it. -/
structure UpstreamReader where
  cancelRequested : Bool

/-- Effect of consumer cancellation on the upstream reader: run the
source's `cancel` member if present (the SSE variant's member cancels
the upstream reader); a source with no `cancel` member does nothing, so
the upstream reader is left untouched. -/
def consumerCancel (src : RelaySource) (r : UpstreamReader) :
    UpstreamReader :=
  match src.cancelMember with
  | none => r
  | some CancelAct.cancelUpstream => ⟨true⟩

/-- Sequential model of the numbered-variant pump when the consumer
stops the stream early: `controller.enqueue` of chunk `k` (0-based)
throws, the single surrounding `try/catch` of `start` reports the error
via `controller.error(error)` and exits — `onComplete` is never
reached. Returns the chunks forwarded before the throw and the (empty)
list of completion-callback invocations. Meaningful for
`k < chunks.length`: the stop happens while chunks remain. -/
def transformStoppedAt (chunks : List Str) (k : Nat) :
    List Str × List StreamParseResult :=
  (chunks.take k, [])

/-- Sequential model of the SSE-variant pump when the consumer stops
the stream early: the `enqueue` of chunk `k` (0-based) throws
`InvalidStateError`, the inner guard catches it and breaks the loop
before that chunk is decoded or processed, the remaining buffer is
flushed, and the callback still fires whenever the accumulated text is
non-empty (`if (result.text) onComplete(result)` runs after the loop
regardless of how it was left). Returns the chunks forwarded before the
throw and the completion-callback invocations. -/
def transformSseStoppedAt (chunks : List Str) (k : Nat) :
    List Str × List StreamParseResult :=
  let s := (chunks.take k).foldl stepChunkSse ([], initResult)
  let final := processRemainingBufferSse s.1 s.2
  (chunks.take k, if final.text.isEmpty then [] else [final])

/-- Prefixes the first piece of a split (the tail kept from a previous
buffer glues onto the first piece of the next split). -/
def prependHead (p : Str) : List Str → List Str
  | [] => [p]
  | l :: ls => (p ++ l) :: ls

/-- A line is either malformed (discarded by `parseStreamLine`) or a
well-formed `text-delta` event. -/
def deltaOrMalformed (l : Str) : Bool :=
  match parseStreamLine l with
  | none => true
  | some d => typeIs d "text-delta"

/-- The text a single line contributes to the accumulator: the delta of
a well-formed, truthy `text-delta` payload, and nothing otherwise. -/
def lineContrib (l : Str) : Str :=
  match parseStreamLine l with
  | some d =>
    if typeIs d "text-delta" && otruthy (jfield d "textDelta") then
      strOf (jfield d "textDelta")
    else []
  | none => []

/-- Joins lines into a single newline-terminated stream. -/
def joinLines (lines : List Str) : Str :=
  (lines.map (fun l => l ++ ['\n'])).flatten

/-- Cost ledger (billing.ts): one usage record. The timestamp is
supplied by the caller (modelling `new Date()`), and money is exact
rational arithmetic in place of IEEE doubles. -/
structure UsageEntry where
  timestamp : Nat
  model : String
  promptTokens : Int
  completionTokens : Int
  totalTokens : Int
  cost : Rat
deriving DecidableEq

/-- The in-memory `usageHistory` array. -/
abbrev Ledger := List UsageEntry

/-- The static `modelCosts` table (billing.ts): per-token input/output
rates. -/
def modelCosts (model : String) : Option (Rat × Rat) :=
  if model = "gpt-4o" then some ((0.005 : Rat) / 1000, (0.015 : Rat) / 1000)
  else if model = "gemini-1.5-pro" then
    some ((0.00125 : Rat) / 1000, (0.005 : Rat) / 1000)
  else if model = "claude-sonnet-4-20250514" then
    some ((0.003 : Rat) / 1000, (0.015 : Rat) / 1000)
  else if model = "deepseek-chat" then
    some ((0.00014 : Rat) / 1000, (0.00028 : Rat) / 1000)
  else if model = "qwen-plus" then
    some ((0.0008 : Rat) / 1000, (0.002 : Rat) / 1000)
  else none

/-- The rate lookup `modelCosts[model] || modelCosts['gpt-4o']`. -/
def lookupCosts (model : String) : Rat × Rat :=
  (modelCosts model).getD ((0.005 : Rat) / 1000, (0.015 : Rat) / 1000)

/-- Embeds `getTotalCost()`: the sum of the costs of all records. -/
def getTotalCost (ledger : Ledger) : Rat :=
  ledger.foldl (fun sum entry => sum + entry.cost) 0

/-- Embeds `trackUsage` (alias `deductCredits`): computes the cost from
the per-model rates, appends one immutable record to the history, and
returns the cost of this call together with the recomputed running
total. -/
def trackUsage (ledger : Ledger) (now : Nat) (model : String)
    (promptTokens completionTokens : Int) : (Rat × Rat) × Ledger :=
  let costs := lookupCosts model
  let cost := promptTokens * costs.1 + completionTokens * costs.2
  let ledger' := ledger ++
    [⟨now, model, promptTokens, completionTokens,
      promptTokens + completionTokens, cost⟩]
  ((cost, getTotalCost ledger'), ledger')

/-- Embeds `getCredits()` (billing.ts): now an alias for the total cost. -/
def getCredits (ledger : Ledger) : Rat := getTotalCost ledger

/-- Runs a sequence of `trackUsage` calls (model, prompt tokens,
completion tokens — token counts are non-negative) against a ledger. -/
def runCalls (ledger : Ledger) : List (String × Nat × Nat) → Ledger
  | [] => ledger
  | (m, p, c) :: rest => runCalls (trackUsage ledger 0 m p c).2 rest

/-- A `text-delta` event payload, as parsed from a stream line. -/
def deltaEvent (s : String) : Json :=
  .obj [("type".data, .str "text-delta".data), ("textDelta".data, .str s.data)]

/-- A full-text replacement event payload. -/
def fullTextEvent (s : String) : Json :=
  .obj [("type".data, .str "text".data), ("text".data, .str s.data)]

/-- A `finish` event payload wrapping a usage object. -/
def finishEvent (u : Json) : Json :=
  .obj [("type".data, .str "finish".data), ("usage".data, u)]

/-- A usage payload in the `promptTokens`/`completionTokens` naming
convention, without `totalTokens`. -/
def usagePayloadPC (p c : Int) : Json :=
  .obj [("promptTokens".data, .num p), ("completionTokens".data, .num c)]

/-- A usage payload in the `inputTokens`/`outputTokens` naming
convention, without `totalTokens`. -/
def usagePayloadInOut (p c : Int) : Json :=
  .obj [("inputTokens".data, .num p), ("outputTokens".data, .num c)]

/-- A usage payload in the `promptTokens`/`completionTokens` naming
convention, with `totalTokens`. -/
def usagePayloadPCT (p c t : Int) : Json :=
  .obj [("promptTokens".data, .num p), ("completionTokens".data, .num c),
    ("totalTokens".data, .num t)]

/-- A usage payload in the `inputTokens`/`outputTokens` naming
convention, with `totalTokens`. -/
def usagePayloadInOutT (p c t : Int) : Json :=
  .obj [("inputTokens".data, .num p), ("outputTokens".data, .num c),
    ("totalTokens".data, .num t)]

/-! ## PR reference extraction (github-pr.ts / codereview route) -/

/-- A pull-request reference: the three regex capture groups. -/
structure PRInfo where
  owner : Str
  repo : Str
  prNumber : Str
deriving DecidableEq

/-- The literal `github.com/` of the PR regex, lowercased. -/
def ghLit : Str := ['g', 'i', 't', 'h', 'u', 'b', '.', 'c', 'o', 'm', '/']

/-- The literal `pull/` of the PR regex, lowercased. -/
def pullLit : Str := ['p', 'u', 'l', 'l', '/']

/-- Strips a case-insensitive literal (the literal is given lowercased;
subject characters are folded with `toLower`, matching the `i` flag on
the ASCII literals involved). -/
def stripLitCI : Str → Str → Option Str
  | [], cs => some cs
  | _ :: _, [] => none
  | p :: ps, c :: cs => if c.toLower = p then stripLitCI ps cs else none

/-- Embeds `([^\/]+)\/`: the greedy non-slash run (which must be
non-empty) followed by the mandatory slash; returns the captured
segment and the remainder after the slash. -/
def segSplit (cs : Str) : Option (Str × Str) :=
  let seg := cs.takeWhile (fun c => c ≠ '/')
  match cs.dropWhile (fun c => c ≠ '/') with
  | '/' :: rest => if seg.isEmpty then none else some (seg, rest)
  | _ => none

/-- Tries the regex `github\.com\/([^\/]+)\/([^\/]+)\/pull\/(\d+)` (flag
`i`) anchored at the start of `cs`. The character classes `[^\/]+` and
`\d+` are greedy and cannot cross their delimiters, so the match is
deterministic: each capture is the maximal run, and the required literal
must follow. -/
def tryPRAt (cs : Str) : Option PRInfo :=
  match stripLitCI ghLit cs with
  | none => none
  | some r1 =>
    match segSplit r1 with
    | none => none
    | some (owner, r2) =>
      match segSplit r2 with
      | none => none
      | some (repo, r3) =>
        match stripLitCI pullLit r3 with
        | none => none
        | some r4 =>
          let num := r4.takeWhile Char.isDigit
          if num.isEmpty then none else some ⟨owner, repo, num⟩

/-- Embeds `s.match(regex)`: the leftmost position where the pattern
matches wins. -/
def prSearch : Str → Option PRInfo
  | [] => none
  | c :: cs =>
    match tryPRAt (c :: cs) with
    | some r => some r
    | none => prSearch cs

/-- Decides whether a case-insensitive literal occurs anywhere in the
subject. -/
def hasLitCI (p : Str) : Str → Bool
  | [] => (stripLitCI p []).isSome
  | c :: cs => (stripLitCI p (c :: cs)).isSome || hasLitCI p cs

/-- One part of a parts-array message: a text part or any other part. -/
inductive MsgPart where
  | text (s : Str) : MsgPart
  | other : MsgPart
deriving DecidableEq

/-- Text contributed by a message part (non-text parts map to `''`). -/
def partText : MsgPart → Str
  | .text s => s
  | .other => []

/-- The message shapes `extractPRInfo` probes, in source order: a
`parts` array, a string `content`, an array `content`, or none of
these (yielding empty content). -/
inductive Msg where
  | parts (ps : List MsgPart) : Msg
  | strContent (s : Str) : Msg
  | arrContent (ps : List MsgPart) : Msg
  | blank : Msg
deriving DecidableEq

/-- The per-message content reconstruction of `extractPRInfo`. -/
def msgContent : Msg → Str
  | .parts ps => (ps.map partText).flatten
  | .strContent s => s
  | .arrContent ps => (ps.map partText).flatten
  | .blank => []

/-- The message-scanning loop of `extractPRInfo`: first message whose
content matches wins. -/
def scanMsgs : List Msg → Option PRInfo
  | [] => none
  | m :: ms =>
    match prSearch (msgContent m) with
    | some r => some r
    | none => scanMsgs ms

/-- The message fallback of `extractPRInfo` (`if (messages) ...`). -/
def extractPRInfoMsgs : Option (List Msg) → Option PRInfo
  | some ms => scanMsgs ms
  | none => none

/-- Embeds `extractPRInfo(prUrl?, messages?)`: the explicit URL is tried
first and wins whenever it matches; otherwise the messages are scanned
in order. -/
def extractPRInfo (prUrl : Option Str) (messages : Option (List Msg)) :
    Option PRInfo :=
  match prUrl with
  | some u =>
    match prSearch u with
    | some r => some r
    | none => extractPRInfoMsgs messages
  | none => extractPRInfoMsgs messages

/-! ## The code tools (codereview route `codeTools`) -/

/-- Outcome of the `fs/promises.readFile` oracle: resolved UTF-8 content
or a thrown value (`some m` an `Error` with message `m`, `none` a
non-`Error` value). -/
inductive FsResult where
  | ok (content : Str) : FsResult
  | err (message : Option Str) : FsResult

/-- Embeds the `execute` procedure of the `readFile` tool: the file
content on success, and the textual fallback on any failure — the tool
resolves to a string in every case instead of throwing. -/
def readFileExecute (fs : Str → FsResult) (path : Str) : Str :=
  match fs path with
  | .ok content => content
  | .err m => "Error reading file: ".data ++ m.getD "Unknown error".data

/-- Outcome of the GitHub list-PR-files fetch oracle: a transport-level
throw, or a response with status, status text, and a body (`Except`
error models `response.json()` throwing). -/
inductive FetchOutcome where
  | netErr (message : Option Str) : FetchOutcome
  | resp (status : Nat) (statusText : Str) (body : Except (Option Str) Json) :
      FetchOutcome

/-- Decimal digits of a natural number (fuelled helper). -/
def natToStrAux : Nat → Nat → Str
  | 0, _ => []
  | fuel + 1, n =>
    if n < 10 then [Char.ofNat (n + 48)]
    else natToStrAux fuel (n / 10) ++ [Char.ofNat (n % 10 + 48)]

/-- Decimal rendering of a natural number. -/
def natToStr (n : Nat) : Str := natToStrAux (n + 1) n

/-- Decimal rendering of an integer. -/
def intToStr (n : Int) : Str :=
  if n < 0 then '-' :: natToStr (-n).toNat else natToStr n.toNat

/-- JSON string escaping for the embedded `JSON.stringify`. -/
def escChar (c : Char) : Str :=
  if c = '"' then ['\\', '"']
  else if c = '\\' then ['\\', '\\']
  else if c = '\n' then ['\\', 'n']
  else if c = '\t' then ['\\', 't']
  else if c = '\r' then ['\\', 'r']
  else [c]

/-- Serializes a JSON string literal. -/
def escStr (s : Str) : Str := '"' :: (s.map escChar).flatten ++ ['"']

/-- Interleaves commas between serialized members. -/
def commaSep : List Str → Str
  | [] => []
  | [x] => x
  | x :: xs => x ++ ',' :: commaSep xs

/-- Fuelled serializer embedding `JSON.stringify` up to insignificant
whitespace (the source passes an indent of 2; the pretty-printing
whitespace is abstracted away, and payloads nested deeper than the
supplied fuel are beyond the model). -/
def stringifyFuel : Nat → Json → Str
  | 0, _ => []
  | fuel + 1, j =>
    match j with
    | .null => "null".data
    | .bool true => "true".data
    | .bool false => "false".data
    | .num n => intToStr n
    | .str s => escStr s
    | .arr es => '[' :: commaSep (es.map (stringifyFuel fuel)) ++ [']']
    | .obj fs =>
      '\x7b' :: commaSep
        (fs.map (fun f => escStr f.1 ++ ':' :: stringifyFuel fuel f.2)) ++
        ['\x7d']

/-- One mapped file entry of the `readPullRequest` tool result; `none`
fields model `undefined` (omitted by `JSON.stringify`). -/
structure PRFileEntry where
  filename : Option Json
  status : Option Json
  additions : Option Json
  deletions : Option Json
  changes : Option Json
  patch : Str
  rawUrl : Option Json

/-- Embeds `a || b` over possibly-undefined values. -/
def jsOrF (a b : Option Json) : Option Json := if otruthy a then a else b

/-- Embeds `file.patch || file.contents || ''`. -/
def prContentOf (f : Json) : Json :=
  if otruthy (jfield f "patch") then (jfield f "patch").getD .null
  else if otruthy (jfield f "contents") then (jfield f "contents").getD .null
  else .str []

/-- Builds one file entry, truncating the patch to 50,000 characters
(`content.substring(0, 50000)`); `none` models the `TypeError` thrown
when the content value is not a string. -/
def mkPRFileEntry (f : Json) : Option PRFileEntry :=
  match prContentOf f with
  | .str s =>
    some ⟨jfield f "filename", jfield f "status", jfield f "additions",
      jfield f "deletions", jfield f "changes", s.take 50000,
      jsOrF (jfield f "contents_url") (jfield f "blob_url")⟩
  | _ => none

/-- A present field of the serialized entry object. -/
def optField (k : String) (v : Option Json) : List (Str × Json) :=
  match v with
  | some j => [(k.data, j)]
  | none => []

/-- The serialized JSON object of one file entry, with `undefined`
fields omitted. -/
def entryJson (e : PRFileEntry) : Json :=
  .obj (optField "filename" e.filename ++ optField "status" e.status ++
    optField "additions" e.additions ++ optField "deletions" e.deletions ++
    optField "changes" e.changes ++ [("patch".data, .str e.patch)] ++
    optField "raw_url" e.rawUrl)

/-- The success payload of the `readPullRequest` tool, serialized. -/
def serializePR (prUrl : Str) (info : PRInfo) (total : Nat)
    (entries : List PRFileEntry) : Str :=
  stringifyFuel 100 (.obj [
    ("pr_url".data, .str prUrl),
    ("owner".data, .str info.owner),
    ("repo".data, .str info.repo),
    ("pr_number".data, .str info.prNumber),
    ("total_files".data, .num total),
    ("files".data, .arr (entries.map entryJson))])

/-- Embeds the `execute` procedure of the `readPullRequest` tool: URL
format errors, transport errors, 404 versus other non-2xx statuses, the
empty-or-non-array body case, and the serialized success payload are all
resolved as strings — never a thrown error (the engine-generated message
of the `TypeError` modelled by `mkPRFileEntry` is abstracted to the
unknown-error fallback). -/
def readPullRequestExecute (fetch : Str → Str → Str → FetchOutcome)
    (prUrl : Str) : Str :=
  match prSearch prUrl with
  | none =>
    ("Error: Invalid GitHub PR URL format. " ++
      "Expected: https://github.com/owner/repo/pull/123").data
  | some info =>
    match fetch info.owner info.repo info.prNumber with
    | .netErr m => "Error reading pull request: ".data ++ m.getD "Unknown error".data
    | .resp status statusText body =>
      if ¬ (200 ≤ status ∧ status ≤ 299) then
        if status = 404 then
          "Error: PR not found. Make sure the PR is public and the URL is correct.".data
        else
          "Error fetching PR files: ".data ++ natToStr status ++ ' ' :: statusText
      else
        match body with
        | .error m =>
          "Error reading pull request: ".data ++ m.getD "Unknown error".data
        | .ok (.arr []) => "No files found in this pull request.".data
        | .ok (.arr files) =>
          match files.mapM mkPRFileEntry with
          | some entries => serializePR prUrl info files.length entries
          | none =>
            "Error reading pull request: ".data ++ "Unknown error".data
        | .ok _ => "No files found in this pull request.".data

/-! ## The request handler (ai-handler.ts) and the chat route -/

/-- Provider registry entry (lib providers): default model and the name
of the environment variable holding the API key. -/
structure ProviderCfg where
  defaultModel : String
  envVar : String

/-- The `providerConfigs` / `envKeyMapping` tables. -/
def providerConfigs : String → Option ProviderCfg
  | "openai" => some ⟨"gpt-4o", "OPENAI_API_KEY"⟩
  | "gemini" => some ⟨"gemini-1.5-pro", "GOOGLE_GENERATIVE_AI_API_KEY"⟩
  | "anthropic" => some ⟨"claude-sonnet-4-20250514", "ANTHROPIC_API_KEY"⟩
  | "deepseek" => some ⟨"deepseek-chat", "DEEPSEEK_API_KEY"⟩
  | "qwen" => some ⟨"qwen-plus", "QWEN_API_KEY"⟩
  | "vercel-ai-gateway" => some ⟨"openai/gpt-4o", "VERCEL_AI_GATEWAY_API_KEY"⟩
  | _ => none

/-- Embeds `getEnvApiKey(providerId)` over an environment oracle. -/
def getEnvApiKey (env : String → Option Str) (providerId : String) :
    Option Str :=
  match providerConfigs providerId with
  | some cfg => env cfg.envVar
  | none => none

/-- One part of a buffered-generation step's `content` array. -/
inductive GenPart where
  | text (s : Str) : GenPart
  | other : GenPart

/-- Text of one content part (`type === 'text'` parts only). -/
def genPartText : GenPart → Str
  | .text s => s
  | .other => []

/-- One step of the buffered tool loop, as reported by `generateText`. -/
structure GenStep where
  content : List GenPart

/-- Joined text parts of one step
(`content.filter(text).map(part.text).join('')`). -/
def stepText (s : GenStep) : Str := (s.content.map genPartText).flatten

/-- The buffered `generateText` result object: final text, optional
steps array, finish reason, and reported usage. -/
structure GenResult where
  text : Str
  steps : Option (List GenStep)
  finishReason : String
  inputTokens : Option Int
  outputTokens : Option Int

/-- Outcome of the `generateText` oracle: a result, or a thrown error
(whose salvage handling is outside the verified claims). -/
inductive GenOutcome where
  | ok (r : GenResult) : GenOutcome
  | threw : GenOutcome

/-- The `{cost, totalCost}` object returned by `deductCredits`. -/
structure BillingInfo where
  cost : Rat
  totalCost : Rat
deriving DecidableEq

/-- A JSON response body of the handler. -/
inductive JsonBody where
  | error (message : Str) : JsonBody
  | success (text : Str) (usage : TokenUsage) (billing : BillingInfo) : JsonBody
deriving DecidableEq

/-- A handler response: a JSON response with a status, a streaming
response (opaque here), or the rethrown-error path of the catch block. -/
inductive HandlerResponse where
  | json (status : Nat) (body : JsonBody) : HandlerResponse
  | stream : HandlerResponse
  | failed : HandlerResponse
deriving DecidableEq

/-- The options of `handleAIRequest` that steer the control flow
relevant to the claims (`messages = none` models a missing or non-array
field; pass-through options such as the system prompt, tools, step
limit, and fallback models do not affect the verified branches and are
omitted). -/
structure AIHandlerOptions where
  messages : Option (List Msg)
  provider : String
  apiKey : Option Str
  model : Option String
  streamFlag : Bool

/-- The user-facing message produced when the model only made tool
calls and no final text exists. -/
def fallbackToolCallMessage : Str :=
  ("The model processed your request and made tool calls, but the final " ++
    "response is not yet available. Please try using streaming mode for " ++
    "better tool call handling.").data

/-- The buffered final-text extraction of `handleAIRequest`: the
result's own text, else the joined text parts of the last step, else —
when the finish reason is `tool-calls` — the explanatory fallback. -/
def finalTextOf (result : GenResult) : Str :=
  let finalText := result.text
  let finalText :=
    if finalText.isEmpty then
      match result.steps with
      | some steps =>
        match steps.getLast? with
        | some lastStep =>
          let tp := stepText lastStep
          if tp.isEmpty then finalText else tp
        | none => finalText
      | none => finalText
    else finalText
  if finalText.isEmpty ∧ result.finishReason = "tool-calls" then
    fallbackToolCallMessage
  else finalText

/-- Embeds `handleAIRequest`: the credits gate, message validation,
provider validation, API-key resolution, and — in buffered mode — the
`generateText` call with final-text extraction and usage tracking.
Streaming mode returns the live stream (opaque in this model) and the
catch path of a thrown buffered call is collapsed to `failed`. -/
def handleAIRequest (env : String → Option Str) (gen : GenOutcome)
    (now : Nat) (ledger : Ledger) (opts : AIHandlerOptions) :
    HandlerResponse × Ledger :=
  if getCredits ledger ≤ 0 then
    (.json 402 (.error "Insufficient credits".data), ledger)
  else
    match opts.messages with
    | none =>
      (.json 400 (.error "Messages are required and must be an array".data),
        ledger)
    | some _ =>
      match providerConfigs opts.provider with
      | none => (.json 400 (.error "Invalid provider".data), ledger)
      | some cfg =>
        match opts.apiKey.orElse (fun _ => getEnvApiKey env opts.provider) with
        | none =>
          (.json 400 (.error ("No API key provided for ".data ++
            opts.provider.data ++ ". Please add it in Settings.".data)),
            ledger)
        | some _ =>
          let modelName := opts.model.getD cfg.defaultModel
          if opts.streamFlag then (.stream, ledger)
          else
            match gen with
            | .threw => (.failed, ledger)
            | .ok result =>
              let finalText := finalTextOf result
              let promptTokens := result.inputTokens.getD 0
              let completionTokens := result.outputTokens.getD 0
              let tracked :=
                trackUsage ledger now modelName promptTokens completionTokens
              (.json 200 (.success finalText
                ⟨promptTokens, completionTokens,
                  promptTokens + completionTokens⟩
                ⟨tracked.1.1, tracked.1.2⟩), tracked.2)

/-- The request body of the chat route (fields steering control flow). -/
structure ChatBody where
  provider : String
  apiKey : Option Str
  streamFlag : Bool

/-- Embeds the chat route's `POST`: the credits gate runs before
anything else (even before the body would be used), then provider
validation, key resolution, and the streaming or buffered call. -/
def chatPOST (env : String → Option Str) (gen : GenOutcome) (now : Nat)
    (ledger : Ledger) (body : ChatBody) : HandlerResponse × Ledger :=
  if getCredits ledger ≤ 0 then
    (.json 402 (.error "Insufficient credits".data), ledger)
  else
    match providerConfigs body.provider with
    | none => (.json 400 (.error "Invalid provider".data), ledger)
    | some cfg =>
      match body.apiKey.orElse (fun _ => getEnvApiKey env body.provider) with
      | none =>
        (.json 400 (.error ("No API key provided for ".data ++
          body.provider.data ++ ". Please add it in Settings.".data)),
          ledger)
      | some _ =>
        if body.streamFlag then (.stream, ledger)
        else
          match gen with
          | .threw => (.failed, ledger)
          | .ok result =>
            let promptTokens := result.inputTokens.getD 0
            let completionTokens := result.outputTokens.getD 0
            let tracked :=
              trackUsage ledger now cfg.defaultModel promptTokens
                completionTokens
            (.json 200 (.success result.text
              ⟨promptTokens, completionTokens,
                promptTokens + completionTokens⟩
              ⟨tracked.1.1, tracked.1.2⟩), tracked.2)

/-! ## Chunk-boundary invariance of the numbered-format pipeline -/

lemma splitNL_ne_nil (cs : Str) : splitNL cs ≠ [] := by
  induction cs with
  | nil => simp [splitNL]
  | cons c cs ih =>
    by_cases h : c = '\n'
    · simp [splitNL, h]
    · simp only [splitNL, if_neg h]
      cases hs : splitNL cs with
      | nil => exact absurd hs ih
      | cons l ls => simp [consHead]

lemma prependHead_ne_nil (p : Str) (ls : List Str) : prependHead p ls ≠ [] := by
  cases ls <;> simp [prependHead]

lemma frontLines_cons (x : Str) (ls : List Str) (h : ls ≠ []) :
    frontLines (x :: ls) = x :: frontLines ls := by
  cases ls with
  | nil => exact absurd rfl h
  | cons y ys => rfl

lemma lastLine_cons (x : Str) (ls : List Str) (h : ls ≠ []) :
    lastLine (x :: ls) = lastLine ls := by
  cases ls with
  | nil => exact absurd rfl h
  | cons y ys => rfl

lemma prependHead_nil_pre (ls : List Str) (h : ls ≠ []) :
    prependHead [] ls = ls := by
  cases ls with
  | nil => exact absurd rfl h
  | cons y ys => simp [prependHead]

lemma splitNL_cons_nl (cs : Str) : splitNL ('\n' :: cs) = [] :: splitNL cs := by
  simp [splitNL]

lemma splitNL_cons_other (c : Char) (cs : Str) (h : c ≠ '\n') :
    splitNL (c :: cs) = consHead c (splitNL cs) := by
  simp [splitNL, h]

lemma splitNL_append (a b : Str) :
    splitNL (a ++ b) =
      frontLines (splitNL a) ++ prependHead (lastLine (splitNL a)) (splitNL b) := by
  induction a with
  | nil =>
    simp only [List.nil_append, splitNL, frontLines, lastLine]
    exact (prependHead_nil_pre _ (splitNL_ne_nil b)).symm
  | cons c a ih =>
    by_cases h : c = '\n'
    · subst h
      rw [List.cons_append, splitNL_cons_nl, splitNL_cons_nl, ih,
        frontLines_cons _ _ (splitNL_ne_nil a),
        lastLine_cons _ _ (splitNL_ne_nil a), List.cons_append]
    · rw [List.cons_append, splitNL_cons_other _ _ h, splitNL_cons_other _ _ h, ih]
      cases hS : splitNL a with
      | nil => exact absurd hS (splitNL_ne_nil a)
      | cons s S =>
        cases S with
        | nil =>
          cases hT : splitNL b with
          | nil => exact absurd hT (splitNL_ne_nil b)
          | cons t T =>
            simp [frontLines, lastLine, prependHead, consHead]
        | cons s2 S2 =>
          simp [frontLines, lastLine, prependHead, consHead]

lemma noNL_lastLine_splitNL (cs : Str) : ¬ '\n' ∈ lastLine (splitNL cs) := by
  induction cs with
  | nil => simp [splitNL, lastLine]
  | cons c cs ih =>
    by_cases h : c = '\n'
    · subst h
      rw [splitNL_cons_nl, lastLine_cons _ _ (splitNL_ne_nil cs)]
      exact ih
    · rw [splitNL_cons_other _ _ h]
      cases hS : splitNL cs with
      | nil => exact absurd hS (splitNL_ne_nil cs)
      | cons s S =>
        rw [hS] at ih
        cases S with
        | nil =>
          simp only [consHead, lastLine]
          simp only [lastLine] at ih
          intro hm
          rcases List.mem_cons.mp hm with h1 | h2
          · exact h h1.symm
          · exact ih h2
        | cons s2 S2 =>
          simp only [consHead, lastLine]
          simp only [lastLine] at ih
          exact ih

lemma splitNL_of_noNL (l : Str) (h : ¬ '\n' ∈ l) : splitNL l = [l] := by
  induction l with
  | nil => rfl
  | cons c l ih =>
    have hc : c ≠ '\n' := fun hc => h (by simp [hc])
    have hl : ¬ '\n' ∈ l := fun hm => h (by simp [hm])
    simp only [splitNL, if_neg hc, ih hl, consHead]

lemma frontLines_append (xs ys : List Str) (h : ys ≠ []) :
    frontLines (xs ++ ys) = xs ++ frontLines ys := by
  induction xs with
  | nil => rfl
  | cons x xs ih =>
    have hne : xs ++ ys ≠ [] := by
      intro hc
      exact h (List.append_eq_nil.mp hc).2
    rw [List.cons_append, frontLines_cons _ _ hne, ih, List.cons_append]

lemma lastLine_append (xs ys : List Str) (h : ys ≠ []) :
    lastLine (xs ++ ys) = lastLine ys := by
  induction xs with
  | nil => rfl
  | cons x xs ih =>
    have hne : xs ++ ys ≠ [] := by
      intro hc
      exact h (List.append_eq_nil.mp hc).2
    rw [List.cons_append, lastLine_cons _ _ hne, ih]

/-- Processing buffered text in two installments is the same as
processing it in one: the core composition property of the incremental
line splitter. -/
lemma stepChunk_append (s : Str × StreamParseResult) (a b : Str) :
    stepChunk (stepChunk s a) b = stepChunk s (a ++ b) := by
  obtain ⟨buf, r⟩ := s
  simp only [stepChunk, processStreamBuffer]
  have hT : splitNL (lastLine (splitNL (buf ++ a)) ++ b) =
      prependHead (lastLine (splitNL (buf ++ a))) (splitNL b) := by
    rw [splitNL_append, splitNL_of_noNL _ (noNL_lastLine_splitNL (buf ++ a))]
    rfl
  have hU : splitNL (buf ++ (a ++ b)) =
      frontLines (splitNL (buf ++ a)) ++
        prependHead (lastLine (splitNL (buf ++ a))) (splitNL b) := by
    rw [← List.append_assoc, splitNL_append]
  rw [hT, hU, lastLine_append _ _ (prependHead_ne_nil _ _),
    frontLines_append _ _ (prependHead_ne_nil _ _), List.foldl_append]

/-- Folding the read loop over a non-empty chunk list equals one pass
over the concatenated stream. -/
lemma foldl_stepChunk_flatten (cs : List Str) (c : Str)
    (s : Str × StreamParseResult) :
    List.foldl stepChunk s (c :: cs) = stepChunk s (c ++ cs.flatten) := by
  induction cs generalizing c s with
  | nil => simp [List.foldl]
  | cons c2 cs ih =>
    calc List.foldl stepChunk s (c :: c2 :: cs)
        = List.foldl stepChunk (stepChunk s c) (c2 :: cs) := rfl
      _ = stepChunk (stepChunk s c) (c2 ++ cs.flatten) := ih c2 _
      _ = stepChunk s (c ++ (c2 ++ cs.flatten)) := stepChunk_append _ _ _
      _ = stepChunk s (c ++ (c2 :: cs).flatten) := by simp

/-- Chunk-boundary invariance of the numbered-format pipeline. -/
lemma parseChunks_flatten (chunks : List Str) :
    parseChunks chunks = parseChunks [chunks.flatten] := by
  cases chunks with
  | nil => decide
  | cons c cs =>
    show processRemainingBuffer (List.foldl stepChunk ([], initResult) (c :: cs)).1
        (List.foldl stepChunk ([], initResult) (c :: cs)).2 =
      processRemainingBuffer (List.foldl stepChunk ([], initResult) [(c :: cs).flatten]).1
        (List.foldl stepChunk ([], initResult) [(c :: cs).flatten]).2
    have h2 : List.foldl stepChunk ([], initResult) [(c :: cs).flatten] =
        stepChunk ([], initResult) (c ++ cs.flatten) := by
      simp [List.foldl]
    rw [foldl_stepChunk_flatten, h2]

/-! ## Extraction lemmas shared by the stream claims -/

lemma typeIs_truthy (d : Json) (t : String) (h : typeIs d t = true) :
    d.truthy = true := by
  cases d with
  | obj fs => rfl
  | null => simp [typeIs, jfield, Json.getField] at h
  | bool b => simp [typeIs, jfield, Json.getField] at h
  | num n => simp [typeIs, jfield, Json.getField] at h
  | str s => simp [typeIs, jfield, Json.getField] at h
  | arr es => simp [typeIs, jfield, Json.getField] at h

lemma typeIs_and_ne (d : Json) (t1 t2 : String) (h : typeIs d t1 = true)
    (hne : t1.data ≠ t2.data) : typeIs d t2 = false := by
  unfold typeIs at h ⊢
  cases hf : jfield d "type" with
  | none => rw [hf] at h
  | some v =>
    rw [hf] at h
    cases v with
    | str s =>
      have h' : s = t1.data := of_decide_eq_true h
      show decide (s = t2.data) = false
      exact decide_eq_false (fun e => hne (h'.symm.trans e))
    | null => exact Bool.noConfusion h
    | bool b => exact Bool.noConfusion h
    | num n => exact Bool.noConfusion h
    | arr es => exact Bool.noConfusion h
    | obj fs => exact Bool.noConfusion h

lemma extract_delta_text (d : Json) (r : StreamParseResult)
    (h : typeIs d "text-delta" = true) :
    (extractFromStreamData d r).text =
      r.text ++
        (if otruthy (jfield d "textDelta") then strOf (jfield d "textDelta")
         else []) := by
  have h2 : typeIs d "text" = false :=
    typeIs_and_ne d "text-delta" "text" h (by decide)
  unfold extractFromStreamData
  simp only [h, h2, Bool.true_and, Bool.false_and, Bool.false_eq_true,
    if_false]
  cases hb : otruthy (jfield d "textDelta") <;> simp

lemma foldl_procLine_deltas (lines : List Str) (r : StreamParseResult)
    (h : ∀ l ∈ lines, deltaOrMalformed l = true) :
    (lines.foldl procLine r).text =
      r.text ++ (lines.map lineContrib).flatten := by
  induction lines generalizing r with
  | nil => simp
  | cons l ls ih =>
    have hl := h l (List.mem_cons_self l ls)
    have hls : ∀ x ∈ ls, deltaOrMalformed x = true := fun x hx =>
      h x (List.mem_cons_of_mem l hx)
    simp only [List.foldl_cons, List.map_cons, List.flatten_cons]
    rw [ih _ hls]
    unfold deltaOrMalformed at hl
    cases hp : parseStreamLine l with
    | none =>
      simp [procLine, lineContrib, hp]
    | some d =>
      rw [hp] at hl
      replace hl : typeIs d "text-delta" = true := hl
      have htr : Json.truthy d = true := typeIs_truthy d _ hl
      simp only [procLine, lineContrib, hp, htr, if_true]
      rw [extract_delta_text d r hl, hl]
      simp only [Bool.true_and]
      rw [List.append_assoc]

lemma splitNL_line_cons (l t : Str) (h : ¬ '\n' ∈ l) :
    splitNL (l ++ '\n' :: t) = l :: splitNL t := by
  induction l with
  | nil => exact splitNL_cons_nl t
  | cons c l ih =>
    have hc : c ≠ '\n' := fun e => h (by simp [e])
    have hl : ¬ '\n' ∈ l := fun m => h (by simp [m])
    rw [List.cons_append, splitNL_cons_other _ _ hc, ih hl]
    rfl

lemma splitNL_joinLines (lines : List Str) (h : ∀ l ∈ lines, ¬ '\n' ∈ l) :
    splitNL (joinLines lines) = lines ++ [[]] := by
  induction lines with
  | nil => rfl
  | cons l ls ih =>
    have h1 : ¬ '\n' ∈ l := h l (by simp)
    have h2 : ∀ x ∈ ls, ¬ '\n' ∈ x := fun x hx => h x (by simp [hx])
    show splitNL ((l ++ ['\n']) ++ joinLines ls) = (l :: ls) ++ [[]]
    rw [List.append_assoc]
    rw [show (['\n'] : Str) ++ joinLines ls = '\n' :: joinLines ls from rfl]
    rw [splitNL_line_cons _ _ h1, ih h2]
    rfl

lemma parseChunks_joinLines (lines : List Str)
    (h : ∀ l ∈ lines, ¬ '\n' ∈ l) :
    parseChunks [joinLines lines] = lines.foldl procLine initResult := by
  show processRemainingBuffer
      (lastLine (splitNL ([] ++ joinLines lines)))
      (List.foldl procLine initResult
        (frontLines (splitNL ([] ++ joinLines lines)))) = _
  rw [List.nil_append, splitNL_joinLines _ h,
    lastLine_append _ _ (by simp), frontLines_append _ _ (by simp)]
  show processRemainingBuffer []
      (List.foldl procLine initResult (lines ++ [])) = _
  rw [List.append_nil]
  rfl

/-! ## Ledger lemmas -/

lemma getTotalCost_append (ledger : Ledger) (e : UsageEntry) :
    getTotalCost (ledger ++ [e]) = getTotalCost ledger + e.cost := by
  unfold getTotalCost
  rw [List.foldl_append]
  rfl

lemma foldl_add_cost (l : Ledger) (a : Rat) :
    l.foldl (fun s e => s + e.cost) a = a + (l.map (fun e => e.cost)).sum := by
  induction l generalizing a with
  | nil => simp
  | cons e es ih => simp [List.foldl_cons, ih, add_assoc]

lemma getTotalCost_eq_sum (ledger : Ledger) :
    getTotalCost ledger = (ledger.map (fun e => e.cost)).sum := by
  unfold getTotalCost
  rw [foldl_add_cost]
  simp

lemma lookupCosts_nonneg (model : String) :
    0 ≤ (lookupCosts model).1 ∧ 0 ≤ (lookupCosts model).2 := by
  unfold lookupCosts modelCosts
  repeat' split
  all_goals norm_num [Option.getD]

lemma trackUsage_cost_nonneg (ledger : Ledger) (now : Nat) (model : String)
    (p c : Nat) : 0 ≤ (trackUsage ledger now model p c).1.1 := by
  have h := lookupCosts_nonneg model
  show 0 ≤ (p : Int) * (lookupCosts model).1 + (c : Int) * (lookupCosts model).2
  exact add_nonneg (mul_nonneg (by positivity) h.1)
    (mul_nonneg (by positivity) h.2)

lemma trackUsage_total (ledger : Ledger) (now : Nat) (model : String)
    (p c : Int) :
    getTotalCost (trackUsage ledger now model p c).2 =
      getTotalCost ledger + (trackUsage ledger now model p c).1.1 := by
  show getTotalCost (ledger ++ [_]) = _
  rw [getTotalCost_append]
  rfl

lemma getTotalCost_runCalls (calls : List (String × Nat × Nat))
    (ledger : Ledger) :
    getTotalCost ledger ≤ getTotalCost (runCalls ledger calls) := by
  induction calls generalizing ledger with
  | nil => exact le_refl _
  | cons x xs ih =>
    obtain ⟨m, p, c⟩ := x
    refine le_trans ?_ (ih ((trackUsage ledger 0 m p c).2))
    rw [trackUsage_total]
    exact le_add_of_nonneg_right (trackUsage_cost_nonneg ledger 0 m p c)

/-! ## Claim theorems -/

/-- Claim C1 (amended): for the numbered-line-format stream parser
(stream-utils variant without SSE block splitting), feeding the chunks
of ANY splitting of an event stream one at a time through
`processStreamBuffer`, then `processRemainingBuffer` on the trailing
buffer, yields exactly the same accumulated text and usage as processing
the whole stream as one chunk; in particular the mid-line-split chunks
of the spec's example accumulate the text `Hello`. -/
theorem claimC1_amended :
    (∀ chunks : List Str, parseChunks chunks = parseChunks [chunks.flatten]) ∧
    parseChunks ["0:\x7b\"type\":\"text-delta\",\"textDelta\":\"Hel".data,
        "lo\"\x7d\n".data] =
      ⟨"Hello".data, none⟩ :=
  ⟨parseChunks_flatten, by decide⟩

/-- Claim C1 (counterexample): for the SSE-capable stream parser variant
(the one that block-splits on blank lines first), splitting the stream
`a\n\n0:(text-delta B)\nx` after the newline that completes the delta
line accumulates `B`, while processing it as one chunk accumulates
nothing — chunk boundaries do change the result, falsifying the claim as
stated for that cited variant. -/
theorem claimC1_counterexample :
    parseChunksSse
        ["a\n\n0:\x7b\"type\":\"text-delta\",\"textDelta\":\"B\"\x7d\n".data,
          "x".data] ≠
      parseChunksSse
        [("a\n\n0:\x7b\"type\":\"text-delta\",\"textDelta\":\"B\"\x7d\n".data ++
          "x".data)] := by
  decide

/-- Claim C2: `trackUsage`/`deductCredits` computes the cost as input
tokens times the model's input rate plus output tokens times its output
rate, appends exactly one record, and returns the running total, which
equals the sum of the costs of all records so far; an unknown model
falls back to the default (gpt-4o) rates; every cost is non-negative and
the running total is monotone across any sequence of calls. -/
theorem claimC2 :
    (∀ (ledger : Ledger) (now : Nat) (model : String) (p c : Nat),
      (trackUsage ledger now model p c).1.1 =
          p * (lookupCosts model).1 + c * (lookupCosts model).2 ∧
      (trackUsage ledger now model p c).2 =
          ledger ++ [⟨now, model, p, c, (p : Int) + c,
            (trackUsage ledger now model p c).1.1⟩] ∧
      (trackUsage ledger now model p c).1.2 =
          getTotalCost (trackUsage ledger now model p c).2 ∧
      getTotalCost (trackUsage ledger now model p c).2 =
          getTotalCost ledger + (trackUsage ledger now model p c).1.1 ∧
      0 ≤ (trackUsage ledger now model p c).1.1) ∧
    (∀ model : String, modelCosts model = none →
      lookupCosts model = lookupCosts "gpt-4o") ∧
    (∀ ledger : Ledger,
      getTotalCost ledger = (ledger.map (fun e => e.cost)).sum) ∧
    (∀ (ledger : Ledger) (calls : List (String × Nat × Nat)),
      getTotalCost ledger ≤ getTotalCost (runCalls ledger calls)) := by
  refine ⟨fun ledger now model p c => ⟨?_, rfl, rfl, ?_, ?_⟩, ?_, ?_, ?_⟩
  · show ((p : Int) : Rat) * _ + ((c : Int) : Rat) * _ = _
    push_cast
    ring
  · exact trackUsage_total ledger now model p c
  · exact trackUsage_cost_nonneg ledger now model p c
  · intro model h
    unfold lookupCosts
    rw [h]
    rfl
  · exact getTotalCost_eq_sum
  · exact fun ledger calls => getTotalCost_runCalls calls ledger

/-- Claim C3: a finish-event usage payload normalizes identically under
the `promptTokens`/`completionTokens` and `inputTokens`/`outputTokens`
naming conventions (with or without an explicit `totalTokens`), and when
`totalTokens` is absent the normalized total is the sum of the two
parts. -/
theorem claimC3 :
    (∀ (p c : Int) (r : StreamParseResult),
      extractFromStreamData (finishEvent (usagePayloadPC p c)) r =
        extractFromStreamData (finishEvent (usagePayloadInOut p c)) r) ∧
    (∀ (p c t : Int) (r : StreamParseResult),
      extractFromStreamData (finishEvent (usagePayloadPCT p c t)) r =
        extractFromStreamData (finishEvent (usagePayloadInOutT p c t)) r) ∧
    (∀ (p c : Int) (r : StreamParseResult),
      (extractFromStreamData (finishEvent (usagePayloadPC p c)) r).usage =
        some ⟨p, c, p + c⟩) ∧
    (∀ (p c t : Int) (r : StreamParseResult),
      (extractFromStreamData (finishEvent (usagePayloadPCT p c t)) r).usage =
        some ⟨p, c, t⟩) :=
  ⟨fun _ _ _ => rfl, fun _ _ _ _ => rfl, fun _ _ _ => rfl, fun _ _ _ _ => rfl⟩

/-- Claim C4: a full-text event replaces the accumulated text wholesale:
from any prior parse state, a `text-delta` event `Hello` followed by a
full-text event `Complete Text` leaves exactly `Complete Text` (and the
usage untouched); the concrete two-line stream of the spec's example
ends with text `Complete Text`. -/
theorem claimC4 :
    (∀ r : StreamParseResult,
      extractFromStreamData (fullTextEvent "Complete Text")
          (extractFromStreamData (deltaEvent "Hello") r) =
        ⟨"Complete Text".data, r.usage⟩) ∧
    parseChunks
        [("0:\x7b\"type\":\"text-delta\",\"textDelta\":\"Hello\"\x7d\n" ++
          "0:\x7b\"type\":\"text\",\"text\":\"Complete Text\"\x7d\n").data] =
      ⟨"Complete Text".data, none⟩ :=
  ⟨fun _ => rfl, by decide⟩

/-- Claim C5: a stream interleaving well-formed `text-delta` lines with
malformed lines (unparsable JSON or lines matching no framing) is
processed without ever erroring — the embedded parser is total — each
malformed line is discarded, and the accumulated text is exactly the
concatenation contributed by the valid delta lines alone; the line
`not-a-valid-line` is discarded by both parser variants, and the
concrete interleaved stream of the spec's example accumulates `AB`. -/
theorem claimC5 :
    (∀ (lines : List Str) (r : StreamParseResult),
      (∀ l ∈ lines, deltaOrMalformed l = true) →
      (lines.foldl procLine r).text =
        r.text ++ (lines.map lineContrib).flatten) ∧
    (∀ lines : List Str,
      (∀ l ∈ lines, ¬ '\n' ∈ l ∧ deltaOrMalformed l = true) →
      (parseChunks [joinLines lines]).text = (lines.map lineContrib).flatten) ∧
    parseStreamLine "not-a-valid-line".data = none ∧
    parseStreamLineSse "not-a-valid-line".data = none ∧
    parseChunks
        [("0:\x7b\"type\":\"text-delta\",\"textDelta\":\"A\"\x7d\n" ++
          "not-a-valid-line\n" ++
          "0:\x7b\"type\":\"text-delta\",\"textDelta\":\"B\"\x7d\n").data] =
      ⟨"AB".data, none⟩ := by
  refine ⟨foldl_procLine_deltas, ?_, rfl, rfl, by decide⟩
  intro lines h
  rw [parseChunks_joinLines lines (fun l hl => (h l hl).1),
    foldl_procLine_deltas lines initResult (fun l hl => (h l hl).2)]
  rfl

/-- Claim C5 (witness): the general malformed-tolerance theorem applied
to the concrete three-line stream containing `not-a-valid-line`. -/
theorem claimC5_witness :
    (∀ l ∈ (["0:\x7b\"type\":\"text-delta\",\"textDelta\":\"A\"\x7d".data,
        "not-a-valid-line".data,
        "0:\x7b\"type\":\"text-delta\",\"textDelta\":\"B\"\x7d".data] :
        List Str), ¬ '\n' ∈ l ∧ deltaOrMalformed l = true) ∧
    (parseChunks [joinLines
        ["0:\x7b\"type\":\"text-delta\",\"textDelta\":\"A\"\x7d".data,
          "not-a-valid-line".data,
          "0:\x7b\"type\":\"text-delta\",\"textDelta\":\"B\"\x7d".data]]).text =
      "AB".data := by
  refine ⟨by decide, ?_⟩
  rw [claimC5.2.1 _ (by decide)]
  decide

/-- Claim C7 (amended): the numbered-variant relay, run sequentially
over a finite upstream read to its natural end, forwards every chunk
and invokes its completion callback exactly once, with the fully
accumulated parse of the whole stream; when the consumer stops that
relay early (the enqueue of a remaining chunk throws), the callback is
never invoked — but the cancellation is not propagated: its underlying
source has no `cancel` member, so consumer cancellation leaves the
upstream reader untouched, whereas the SSE variant's `cancel` member
does cancel the upstream reader. -/
theorem claimC7_amended (chunks : List Str) :
    transformStreamToCollectData chunks =
      (chunks, [parseChunks [chunks.flatten]]) ∧
    (∀ k : Nat, k < chunks.length →
      (transformStoppedAt chunks k).2 = []) ∧
    (∀ r : UpstreamReader, consumerCancel collectDataSource r = r) ∧
    consumerCancel collectDataSourceSse ⟨false⟩ = ⟨true⟩ := by
  refine ⟨?_, fun k _ => rfl, fun r => rfl, rfl⟩
  show (chunks, [parseChunks chunks]) = _
  rw [parseChunks_flatten]

/-- Claim C7 (witness): the amended theorem instantiated on a concrete
two-chunk delta stream, with the early stop happening before the
second chunk. -/
theorem claimC7_amended_witness :
    (1 : Nat) < 2 ∧
    (transformStoppedAt
        ["0:\x7b\"type\":\"text-delta\",\"textDelta\":\"A\"\x7d\n".data,
          "0:\x7b\"type\":\"text-delta\",\"textDelta\":\"B\"\x7d\n".data]
        1).2 = [] ∧
    transformStreamToCollectData
        ["0:\x7b\"type\":\"text-delta\",\"textDelta\":\"A\"\x7d\n".data,
          "0:\x7b\"type\":\"text-delta\",\"textDelta\":\"B\"\x7d\n".data] =
      (["0:\x7b\"type\":\"text-delta\",\"textDelta\":\"A\"\x7d\n".data,
          "0:\x7b\"type\":\"text-delta\",\"textDelta\":\"B\"\x7d\n".data],
        [⟨"AB".data, none⟩]) := by
  obtain ⟨h1, h2, h3, h4⟩ := claimC7_amended
    ["0:\x7b\"type\":\"text-delta\",\"textDelta\":\"A\"\x7d\n".data,
      "0:\x7b\"type\":\"text-delta\",\"textDelta\":\"B\"\x7d\n".data]
  refine ⟨by decide, h2 1 (by decide), ?_⟩
  rw [h1]
  decide

/-- Claim C7 (counterexample): the claim fails for both cited relays.
Exactly-once fails for the SSE variant, which guards the callback with
`if (result.text)`: on a fully-read stream consisting of a single
finish/usage event the callback never fires, even though the stream
completed naturally and usage was accumulated. Never-on-cancel also
fails for the SSE variant: stopped by the consumer after its first
chunk, it still invokes the callback with the partial text. And
propagation fails for the numbered variant: its underlying source has
no `cancel` member, so consumer cancellation never reaches the
upstream reader. -/
theorem claimC7_counterexample :
    (transformStreamToCollectDataSse
        [("0:\x7b\"type\":\"finish\",\"usage\":" ++
          "\x7b\"inputTokens\":3,\"outputTokens\":4\x7d\x7d\n").data]).2 =
        [] ∧
    parseChunksSse
        [("0:\x7b\"type\":\"finish\",\"usage\":" ++
          "\x7b\"inputTokens\":3,\"outputTokens\":4\x7d\x7d\n").data] =
      ⟨[], some ⟨3, 4, 7⟩⟩ ∧
    (transformSseStoppedAt
        ["0:\x7b\"type\":\"text-delta\",\"textDelta\":\"Hi\"\x7d\n".data,
          "0:\x7b\"type\":\"text-delta\",\"textDelta\":\"!\"\x7d\n".data]
        1).2 = [⟨"Hi".data, none⟩] ∧
    consumerCancel collectDataSource ⟨false⟩ = ⟨false⟩ :=
  ⟨by decide, by decide, by decide, rfl⟩

/-- Claim C10: with a fresh (empty) usage history the ledger's total is
zero, and both `handleAIRequest` and the chat route's `POST` reject
every request — whatever the options, environment, or upstream oracle,
none of which are consulted — with status 402 and error
`Insufficient credits`. -/
theorem claimC10 :
    getCredits ([] : Ledger) = 0 ∧
    (∀ (env : String → Option Str) (gen : GenOutcome) (now : Nat)
      (opts : AIHandlerOptions),
      handleAIRequest env gen now [] opts =
        (.json 402 (.error "Insufficient credits".data), [])) ∧
    (∀ (env : String → Option Str) (gen : GenOutcome) (now : Nat)
      (body : ChatBody),
      chatPOST env gen now [] body =
        (.json 402 (.error "Insufficient credits".data), [])) :=
  ⟨rfl, fun _ _ _ _ => rfl, fun _ _ _ _ => rfl⟩

/-! ## PR-extraction lemmas -/

lemma stripLitCI_gh (X : Str) : stripLitCI ghLit (ghLit ++ X) = some X := rfl

lemma stripLitCI_pull (X : Str) :
    stripLitCI pullLit (pullLit ++ X) = some X := rfl

lemma prSearch_https (rest : Str) :
    prSearch ("https://".data ++ rest) = prSearch rest := rfl

lemma ne_nil_isEmpty_false (xs : Str) (h : xs ≠ []) : xs.isEmpty = false := by
  cases xs with
  | nil => exact absurd rfl h
  | cons a l => rfl

lemma takeWhile_all (p : Char → Bool) (xs : Str)
    (hall : ∀ x ∈ xs, p x = true) : xs.takeWhile p = xs := by
  induction xs with
  | nil => rfl
  | cons x l ih =>
    have hx := hall x (by simp)
    simp [List.takeWhile_cons, hx, ih (fun z hz => hall z (by simp [hz]))]

lemma takeWhile_append_stop (p : Char → Bool) (xs ys : Str) (y : Char)
    (hall : ∀ x ∈ xs, p x = true) (hy : p y = false) :
    (xs ++ y :: ys).takeWhile p = xs := by
  induction xs with
  | nil => simp [List.takeWhile_cons, hy]
  | cons x l ih =>
    have hx := hall x (by simp)
    simp [List.takeWhile_cons, hx, ih (fun z hz => hall z (by simp [hz]))]

lemma dropWhile_append_stop (p : Char → Bool) (xs ys : Str) (y : Char)
    (hall : ∀ x ∈ xs, p x = true) (hy : p y = false) :
    (xs ++ y :: ys).dropWhile p = y :: ys := by
  induction xs with
  | nil => simp [List.dropWhile_cons, hy]
  | cons x l ih =>
    have hx := hall x (by simp)
    simp [List.dropWhile_cons, hx, ih (fun z hz => hall z (by simp [hz]))]

lemma segSplit_build (xs ys : Str) (hne : xs ≠ [])
    (hall : ∀ x ∈ xs, x ≠ '/') : segSplit (xs ++ '/' :: ys) = some (xs, ys) := by
  have htake : (xs ++ '/' :: ys).takeWhile (fun c => c ≠ '/') = xs :=
    takeWhile_append_stop _ xs ys '/'
      (fun x hx => decide_eq_true (hall x hx)) (by decide)
  have hdrop : (xs ++ '/' :: ys).dropWhile (fun c => c ≠ '/') = '/' :: ys :=
    dropWhile_append_stop _ xs ys '/'
      (fun x hx => decide_eq_true (hall x hx)) (by decide)
  simp only [segSplit, htake, hdrop, ne_nil_isEmpty_false xs hne,
    Bool.false_eq_true, if_false]

lemma prSearch_hit (c : Char) (cs : Str) (r : PRInfo)
    (h : tryPRAt (c :: cs) = some r) : prSearch (c :: cs) = some r := by
  simp [prSearch, h]

lemma tryPRAt_build (owner repo num tail : Str)
    (ho : owner ≠ []) (hoc : ∀ ch ∈ owner, ch ≠ '/')
    (hr : repo ≠ []) (hrc : ∀ ch ∈ repo, ch ≠ '/')
    (hn : num ≠ []) (hnd : ∀ ch ∈ num, ch.isDigit = true)
    (ht : tail = [] ∨ (∃ q, tail = '?' :: q) ∨ (∃ q, tail = '#' :: q)) :
    tryPRAt (ghLit ++ (owner ++ '/' :: (repo ++ '/' ::
      (pullLit ++ (num ++ tail))))) = some ⟨owner, repo, num⟩ := by
  have e1 := stripLitCI_gh
    (owner ++ '/' :: (repo ++ '/' :: (pullLit ++ (num ++ tail))))
  have e2 := segSplit_build owner
    (repo ++ '/' :: (pullLit ++ (num ++ tail))) ho hoc
  have e3 := segSplit_build repo (pullLit ++ (num ++ tail)) hr hrc
  have e4 := stripLitCI_pull (num ++ tail)
  have e5 : (num ++ tail).takeWhile Char.isDigit = num := by
    rcases ht with h | ⟨q, h⟩ | ⟨q, h⟩
    · subst h; rw [List.append_nil]; exact takeWhile_all _ _ hnd
    · subst h; exact takeWhile_append_stop _ num q '?' hnd (by decide)
    · subst h; exact takeWhile_append_stop _ num q '#' hnd (by decide)
  have e6 := ne_nil_isEmpty_false num hn
  simp only [tryPRAt, e1, e2, e3, e4, e5, e6, Bool.false_eq_true, if_false]

lemma stripLitCI_suffix (p : Str) : ∀ (cs r : Str),
    stripLitCI p cs = some r → r <:+ cs := by
  induction p with
  | nil =>
    intro cs r h
    injection h with h
    subst h
    exact List.suffix_refl _
  | cons pc ps ih =>
    intro cs r h
    cases cs with
    | nil => exact absurd h (by simp [stripLitCI])
    | cons c cs' =>
      unfold stripLitCI at h
      by_cases hc : c.toLower = pc
      · rw [if_pos hc] at h
        exact (ih cs' r h).trans (List.suffix_cons c cs')
      · rw [if_neg hc] at h
        exact absurd h (by simp)

lemma segSplit_suffix (cs seg rest : Str) (h : segSplit cs = some (seg, rest)) :
    rest <:+ cs := by
  simp only [segSplit] at h
  split at h
  · rename_i rest' heq
    split at h
    · exact absurd h (by simp)
    · injection h with h'
      obtain ⟨h1, h2⟩ := Prod.mk.injEq .. |>.mp h'
      subst h2
      exact (List.suffix_cons '/' rest').trans (heq ▸ List.dropWhile_suffix _)
  · exact absurd h (by simp)

lemma hasLitCI_of_suffix (p t u : Str) (hs : t <:+ u)
    (h : (stripLitCI p t).isSome = true) : hasLitCI p u = true := by
  induction u with
  | nil =>
    have ht : t = [] := List.suffix_nil.mp hs
    subst ht
    exact h
  | cons c cs ih =>
    obtain ⟨s, hsEq⟩ := hs
    cases s with
    | nil =>
      simp only [List.nil_append] at hsEq
      subst hsEq
      show ((stripLitCI p (c :: cs)).isSome || hasLitCI p cs) = true
      rw [h]
      rfl
    | cons a s' =>
      simp only [List.cons_append] at hsEq
      injection hsEq with h1 h2
      show ((stripLitCI p (c :: cs)).isSome || hasLitCI p cs) = true
      rw [ih ⟨s', h2⟩]
      simp

lemma tryPRAt_gh_isSome (cs : Str) (r : PRInfo) (h : tryPRAt cs = some r) :
    (stripLitCI ghLit cs).isSome = true := by
  unfold tryPRAt at h
  cases hg : stripLitCI ghLit cs with
  | none => rw [hg] at h; exact absurd h (by simp)
  | some _ => rfl

lemma tryPRAt_pull (cs : Str) (r : PRInfo) (h : tryPRAt cs = some r) :
    ∃ t : Str, t <:+ cs ∧ (stripLitCI pullLit t).isSome = true := by
  unfold tryPRAt at h
  split at h
  · exact absurd h (by simp)
  next r1 hg =>
    split at h
    · exact absurd h (by simp)
    next owner r2 h2 =>
      split at h
      · exact absurd h (by simp)
      next repo r3 h3 =>
        split at h
        · exact absurd h (by simp)
        next r4 h4 =>
          have s1 : r1 <:+ cs := stripLitCI_suffix ghLit cs r1 hg
          have s2 : r2 <:+ r1 := segSplit_suffix r1 owner r2 h2
          have s3 : r3 <:+ r2 := segSplit_suffix r2 repo r3 h3
          exact ⟨r3, (s3.trans s2).trans s1, by rw [h4]; rfl⟩

lemma prSearch_gh (u : Str) (r : PRInfo) (h : prSearch u = some r) :
    hasLitCI ghLit u = true := by
  induction u with
  | nil => exact absurd h (by simp [prSearch])
  | cons c cs ih =>
    cases htry : tryPRAt (c :: cs) with
    | some r' =>
      show ((stripLitCI ghLit (c :: cs)).isSome || hasLitCI ghLit cs) = true
      rw [tryPRAt_gh_isSome _ _ htry]
      rfl
    | none =>
      replace h : prSearch cs = some r := by
        rw [show prSearch (c :: cs) = (match tryPRAt (c :: cs) with
          | some r => some r | none => prSearch cs) from rfl, htry] at h
        exact h
      show ((stripLitCI ghLit (c :: cs)).isSome || hasLitCI ghLit cs) = true
      rw [ih h]
      simp

lemma prSearch_pull (u : Str) (r : PRInfo) (h : prSearch u = some r) :
    hasLitCI pullLit u = true := by
  induction u with
  | nil => exact absurd h (by simp [prSearch])
  | cons c cs ih =>
    cases htry : tryPRAt (c :: cs) with
    | some r' =>
      obtain ⟨t, hsuf, hsome⟩ := tryPRAt_pull _ _ htry
      exact hasLitCI_of_suffix pullLit t (c :: cs) hsuf hsome
    | none =>
      replace h : prSearch cs = some r := by
        rw [show prSearch (c :: cs) = (match tryPRAt (c :: cs) with
          | some r => some r | none => prSearch cs) from rfl, htry] at h
        exact h
      show ((stripLitCI pullLit (c :: cs)).isSome || hasLitCI pullLit cs) = true
      rw [ih h]
      simp

lemma scanMsgs_append_first (ms1 : List Msg) (m : Msg) (ms2 : List Msg)
    (r : PRInfo) (h1 : ∀ m' ∈ ms1, prSearch (msgContent m') = none)
    (h2 : prSearch (msgContent m) = some r) :
    scanMsgs (ms1 ++ m :: ms2) = some r := by
  induction ms1 with
  | nil => simp [scanMsgs, h2]
  | cons x xs ih =>
    have hx := h1 x (by simp)
    simp [scanMsgs, hx, ih (fun z hz => h1 z (by simp [hz]))]

/-- Claim C6 (amended): `extractPRInfo` on the URL
`https://github.com/owner/repo/pull/123` yields owner/repo/123 whatever
the messages are (the explicit URL wins); matching is case-insensitive;
a trailing `?query` or `#fragment` after the pull number of a well-formed
PR URL is ignored; the result is `null` exactly when no substring of the
input matches the pattern — in particular for a URL in which the literal
`github.com/` (or `pull/`) occurs nowhere, and for a `github.com` URL
whose pull segment carries no digits; with no explicit URL the first
message whose content matches provides the result; and an explicit
matching URL always takes priority over URLs embedded in messages. The
match is a substring search, not a host check (see the
counterexample). -/
theorem claimC6_amended :
    (∀ msgs : Option (List Msg),
      extractPRInfo (some "https://github.com/owner/repo/pull/123".data)
          msgs = some ⟨"owner".data, "repo".data, "123".data⟩) ∧
    extractPRInfo (some "https://GITHUB.COM/Owner/Repo/PULL/456".data) none =
      some ⟨"Owner".data, "Repo".data, "456".data⟩ ∧
    (∀ owner repo num tail : Str, owner ≠ [] → repo ≠ [] → num ≠ [] →
      (∀ ch ∈ owner, ch ≠ '/') → (∀ ch ∈ repo, ch ≠ '/') →
      (∀ ch ∈ num, ch.isDigit = true) →
      (tail = [] ∨ (∃ q, tail = '?' :: q) ∨ (∃ q, tail = '#' :: q)) →
      extractPRInfo
        (some ("https://github.com/".data ++ owner ++ '/' :: repo ++
          "/pull/".data ++ num ++ tail)) none = some ⟨owner, repo, num⟩) ∧
    (∀ u : Str, hasLitCI ghLit u = false →
      extractPRInfo (some u) none = none) ∧
    (∀ u : Str, hasLitCI pullLit u = false →
      extractPRInfo (some u) none = none) ∧
    (∀ (ms1 : List Msg) (m : Msg) (ms2 : List Msg) (r : PRInfo),
      (∀ m' ∈ ms1, prSearch (msgContent m') = none) →
      prSearch (msgContent m) = some r →
      extractPRInfo none (some (ms1 ++ m :: ms2)) = some r) ∧
    (∀ (u : Str) (msgs : Option (List Msg)) (r : PRInfo),
      prSearch u = some r → extractPRInfo (some u) msgs = some r) ∧
    extractPRInfo (some "https://github.com/owner/repo/pull/abc".data)
      none = none := by
  refine ⟨fun msgs => rfl, rfl, ?_, ?_, ?_, ?_, ?_, by decide⟩
  · intro owner repo num tail ho hr hn hoc hrc hnd ht
    have h1 : "https://github.com/".data = "https://".data ++ ghLit := rfl
    have h2 : "/pull/".data = '/' :: pullLit := rfl
    have hsearch : prSearch ("https://".data ++ (ghLit ++ (owner ++ '/' ::
        (repo ++ '/' :: (pullLit ++ (num ++ tail)))))) =
        some ⟨owner, repo, num⟩ := by
      rw [prSearch_https]
      show prSearch ('g' :: _) = _
      exact prSearch_hit _ _ _
        (tryPRAt_build owner repo num tail ho hoc hr hrc hn hnd ht)
    rw [h1, h2]
    simp only [List.append_assoc, List.cons_append] at hsearch ⊢
    simp only [extractPRInfo, hsearch]
  · intro u h
    cases hp : prSearch u with
    | none => simp [extractPRInfo, hp, extractPRInfoMsgs]
    | some r =>
      have := prSearch_gh u r hp
      rw [h] at this
      exact absurd this (by simp)
  · intro u h
    cases hp : prSearch u with
    | none => simp [extractPRInfo, hp, extractPRInfoMsgs]
    | some r =>
      have := prSearch_pull u r hp
      rw [h] at this
      exact absurd this (by simp)
  · intro ms1 m ms2 r h1 h2
    show scanMsgs (ms1 ++ m :: ms2) = some r
    exact scanMsgs_append_first ms1 m ms2 r h1 h2
  · intro u msgs r h
    simp [extractPRInfo, h]

/-- Claim C6 (witness): the query-suffix, message-scanning, and
explicit-priority parts of the amended claim instantiated on concrete
inputs (the jest fixtures of the repository's own test suite). -/
theorem claimC6_witness :
    extractPRInfo
        (some ("https://github.com/".data ++ "owner".data ++ '/' ::
          "repo".data ++ "/pull/".data ++ "123".data ++ "?tab=files".data))
        none = some ⟨"owner".data, "repo".data, "123".data⟩ ∧
    extractPRInfo none
        (some [Msg.strContent "Hello".data,
          Msg.strContent
            "Review: https://github.com/owner/repo/pull/456".data]) =
      some ⟨"owner".data, "repo".data, "456".data⟩ ∧
    extractPRInfo (some "https://github.com/a/b/pull/1".data)
        (some [Msg.strContent "https://github.com/c/d/pull/2".data]) =
      some ⟨"a".data, "b".data, "1".data⟩ := by
  refine ⟨?_, ?_, ?_⟩
  · exact claimC6_amended.2.2.1 "owner".data "repo".data "123".data
      "?tab=files".data
      (by decide) (by decide) (by decide) (by decide) (by decide) (by decide)
      (Or.inr (Or.inl ⟨"tab=files".data, rfl⟩))
  · exact claimC6_amended.2.2.2.2.2.1 [Msg.strContent "Hello".data]
      (Msg.strContent "Review: https://github.com/owner/repo/pull/456".data)
      [] ⟨"owner".data, "repo".data, "456".data⟩ (by decide) (by decide)
  · exact claimC6_amended.2.2.2.2.2.2.1 "https://github.com/a/b/pull/1".data _
      ⟨"a".data, "b".data, "1".data⟩ (by decide)

/-- Claim C6 (counterexample): the claim asserts that every input whose
host is not GitHub yields `null`, but the source regex
`github\.com\/([^\/]+)\/([^\/]+)\/pull\/(\d+)` is unanchored: on a URL
whose host is `evil.com` but whose path embeds
`github.com/a/b/pull/1`, `extractPRInfo` matches the embedded
occurrence and returns `a`/`b`/`1` instead of `null`. -/
theorem claimC6_counterexample :
    extractPRInfo (some "https://evil.com/github.com/a/b/pull/1".data)
      none = some ⟨"a".data, "b".data, "1".data⟩ := by
  decide

/-! ## Tool lemmas -/

lemma mkPRFileEntry_patch_le (f : Json) (e : PRFileEntry)
    (h : mkPRFileEntry f = some e) : e.patch.length ≤ 50000 := by
  unfold mkPRFileEntry at h
  split at h
  · injection h with h'
    subst h'
    show ((_ : Str).take 50000).length ≤ 50000
    rw [List.length_take]
    exact min_le_left _ _
  · exact absurd h (by simp)

lemma mapM_mkPRFileEntry_mem (files : List Json) :
    ∀ entries : List PRFileEntry,
    files.mapM mkPRFileEntry = some entries →
    ∀ e ∈ entries, ∃ f, mkPRFileEntry f = some e := by
  induction files with
  | nil =>
    intro entries h e he
    rw [List.mapM_nil] at h
    injection h with h
    subst h
    exact absurd he (by simp)
  | cons f fs ih =>
    intro entries h e he
    rw [List.mapM_cons] at h
    cases hf : mkPRFileEntry f with
    | none => rw [hf] at h; exact absurd h (by simp)
    | some e1 =>
      rw [hf] at h
      cases hfs : fs.mapM mkPRFileEntry with
      | none => rw [hfs] at h; exact absurd h (by simp)
      | some es =>
        rw [hfs] at h
        replace h : some (e1 :: es) = some entries := h
        injection h with h
        subst h
        rcases List.mem_cons.mp he with h1 | h2
        · exact ⟨f, by rw [hf, h1]⟩
        · exact ih es hfs e h2

/-- Claim C8: the execute procedures of both tools always resolve to a
string (they are total functions into `Str`) and never raise: `readFile`
returns the content on success and the `Error reading file:` fallback on
any failure; `readPullRequest` returns the URL-format error when the URL
does not match the owner/repo/pull pattern, distinguishes a 404
(`PR not found`) from other non-2xx statuses, and on success returns the
serialized JSON of the file entries, each with its patch truncated to at
most 50,000 characters. -/
theorem claimC8 :
    (∀ (fs : Str → FsResult) (path content : Str),
      fs path = .ok content → readFileExecute fs path = content) ∧
    (∀ (fs : Str → FsResult) (path : Str) (m : Option Str),
      fs path = .err m →
      readFileExecute fs path =
        "Error reading file: ".data ++ m.getD "Unknown error".data) ∧
    (∀ (fetch : Str → Str → Str → FetchOutcome) (u : Str),
      prSearch u = none →
      readPullRequestExecute fetch u =
        ("Error: Invalid GitHub PR URL format. " ++
          "Expected: https://github.com/owner/repo/pull/123").data) ∧
    (∀ (fetch : Str → Str → Str → FetchOutcome) (u : Str) (info : PRInfo)
      (stext : Str) (body : Except (Option Str) Json),
      prSearch u = some info →
      fetch info.owner info.repo info.prNumber = .resp 404 stext body →
      readPullRequestExecute fetch u =
        ("Error: PR not found. " ++
          "Make sure the PR is public and the URL is correct.").data) ∧
    (∀ (fetch : Str → Str → Str → FetchOutcome) (u : Str) (info : PRInfo)
      (status : Nat) (stext : Str) (body : Except (Option Str) Json),
      prSearch u = some info →
      fetch info.owner info.repo info.prNumber = .resp status stext body →
      ¬ (200 ≤ status ∧ status ≤ 299) → status ≠ 404 →
      readPullRequestExecute fetch u =
        "Error fetching PR files: ".data ++ natToStr status ++ ' ' :: stext) ∧
    (∀ (fetch : Str → Str → Str → FetchOutcome) (u : Str) (info : PRInfo)
      (status : Nat) (stext : Str) (files : List Json)
      (entries : List PRFileEntry),
      prSearch u = some info →
      fetch info.owner info.repo info.prNumber =
        .resp status stext (.ok (.arr files)) →
      200 ≤ status → status ≤ 299 → files ≠ [] →
      files.mapM mkPRFileEntry = some entries →
      readPullRequestExecute fetch u =
          serializePR u info files.length entries ∧
        ∀ e ∈ entries, e.patch.length ≤ 50000) := by
  refine ⟨?_, ?_, ?_, ?_, ?_, ?_⟩
  · intro fs path content h
    simp [readFileExecute, h]
  · intro fs path m h
    simp [readFileExecute, h]
  · intro fetch u h
    simp [readPullRequestExecute, h]
  · intro fetch u info stext body hsearch hfetch
    simp only [readPullRequestExecute, hsearch, hfetch]
    norm_num
  · intro fetch u info status stext body hsearch hfetch hc1 h404
    simp only [readPullRequestExecute, hsearch, hfetch]
    rw [if_pos hc1, if_neg h404]
  · intro fetch u info status stext files entries hsearch hfetch h200 h299
      hne hmapM
    refine ⟨?_, fun e he => ?_⟩
    · simp only [readPullRequestExecute, hsearch, hfetch]
      rw [if_neg (not_not_intro ⟨h200, h299⟩)]
      cases files with
      | nil => exact absurd rfl hne
      | cons f fs => rw [hmapM]
    · obtain ⟨f, hf⟩ := mapM_mkPRFileEntry_mem files entries hmapM e he
      exact mkPRFileEntry_patch_le f e hf

set_option maxHeartbeats 1600000 in
set_option maxRecDepth 8000 in
/-- Claim C8 (witness): the error branches and the truncating success
branch exercised on concrete oracles. -/
theorem claimC8_witness :
    readFileExecute
        (fun p => if p = "a.txt".data then .ok "hello".data
          else .err (some "ENOENT".data)) "b.txt".data =
      "Error reading file: ".data ++ "ENOENT".data ∧
    readPullRequestExecute (fun _ _ _ => .netErr none) "no-pr-here".data =
      ("Error: Invalid GitHub PR URL format. " ++
        "Expected: https://github.com/owner/repo/pull/123").data ∧
    readPullRequestExecute
        (fun _ _ _ => .resp 404 "Not Found".data (.ok .null))
        "https://github.com/o/r/pull/1".data =
      ("Error: PR not found. " ++
        "Make sure the PR is public and the URL is correct.").data ∧
    readPullRequestExecute
        (fun _ _ _ => .resp 500 "Server Error".data (.ok .null))
        "https://github.com/o/r/pull/1".data =
      "Error fetching PR files: ".data ++ natToStr 500 ++
        ' ' :: "Server Error".data ∧
    (readPullRequestExecute
        (fun _ _ _ => .resp 200 "OK".data (.ok (.arr
          [.obj [("filename".data, .str "a.ts".data),
            ("patch".data, .str "diff".data)]])))
        "https://github.com/o/r/pull/1".data =
      serializePR "https://github.com/o/r/pull/1".data
        ⟨"o".data, "r".data, "1".data⟩ 1
        [⟨some (.str "a.ts".data), none, none, none, none, "diff".data,
          none⟩] ∧
    ∀ e ∈ [(⟨some (.str "a.ts".data), none, none, none, none, "diff".data,
          none⟩ : PRFileEntry)], e.patch.length ≤ 50000) := by
  refine ⟨?_, ?_, ?_, ?_, ?_⟩
  · exact claimC8.2.1 _ "b.txt".data (some "ENOENT".data) rfl
  · exact claimC8.2.2.1 _ _ (by decide)
  · exact claimC8.2.2.2.1 _ _ ⟨"o".data, "r".data, "1".data⟩
      "Not Found".data (.ok .null) (by decide) rfl
  · exact claimC8.2.2.2.2.1 _ _ ⟨"o".data, "r".data, "1".data⟩ 500
      "Server Error".data (.ok .null) (by decide) rfl (by decide) (by decide)
  · exact claimC8.2.2.2.2.2
      (fun _ _ _ => .resp 200 "OK".data (.ok (.arr
        [.obj [("filename".data, .str "a.ts".data),
          ("patch".data, .str "diff".data)]])))
      "https://github.com/o/r/pull/1".data ⟨"o".data, "r".data, "1".data⟩
      200 "OK".data
      [.obj [("filename".data, .str "a.ts".data),
        ("patch".data, .str "diff".data)]]
      [⟨some (.str "a.ts".data), none, none, none, none, "diff".data, none⟩]
      (by decide) rfl (by decide) (by decide) (by simp) (by rfl)

/-! ## Handler lemmas -/

lemma finalTextOf_fallback (result : GenResult)
    (h1 : result.text = [])
    (h2 : ∀ step ∈ result.steps.getD [], stepText step = [])
    (h3 : result.finishReason = "tool-calls") :
    finalTextOf result = fallbackToolCallMessage := by
  unfold finalTextOf
  rw [h1]
  cases hs : result.steps with
  | none => simp [h3]
  | some steps =>
    cases hl : steps.getLast? with
    | none => simp [hl, h3]
    | some lastStep =>
      have hmem : lastStep ∈ steps := by
        obtain ⟨hne, heq⟩ :=
          List.mem_getLast?_eq_getLast (Option.mem_def.mpr hl)
        rw [heq]
        exact List.getLast_mem hne
      have hst : stepText lastStep = [] := by
        refine h2 lastStep ?_
        rw [hs]
        exact hmem
      simp [hl, hst, h3]

/-- Claim C9: in buffered mode, when the provider result carries no text
anywhere (neither `result.text` nor any text part in the steps) and the
finish reason is `tool-calls`, `handleAIRequest` returns a 200 JSON
response whose text is the non-empty user-facing message mentioning the
tool calls and suggesting streaming mode. -/
theorem claimC9 (env : String → Option Str) (now : Nat) (ledger : Ledger)
    (msgs : List Msg) (provider : String) (cfg : ProviderCfg)
    (apiKey : Option Str) (model : Option String) (result : GenResult) :
    0 < getCredits ledger →
    providerConfigs provider = some cfg →
    (apiKey.orElse (fun _ => getEnvApiKey env provider)).isSome = true →
    result.text = [] →
    (∀ step ∈ result.steps.getD [], stepText step = []) →
    result.finishReason = "tool-calls" →
    (handleAIRequest env (.ok result) now ledger
        ⟨some msgs, provider, apiKey, model, false⟩).1 =
      .json 200 (.success fallbackToolCallMessage
        ⟨result.inputTokens.getD 0, result.outputTokens.getD 0,
          result.inputTokens.getD 0 + result.outputTokens.getD 0⟩
        ⟨(trackUsage ledger now (model.getD cfg.defaultModel)
            (result.inputTokens.getD 0) (result.outputTokens.getD 0)).1.1,
          (trackUsage ledger now (model.getD cfg.defaultModel)
            (result.inputTokens.getD 0) (result.outputTokens.getD 0)).1.2⟩) ∧
      fallbackToolCallMessage ≠ [] := by
  intro hcred hcfg hkey h1 h2 h3
  refine ⟨?_, by decide⟩
  obtain ⟨k, hk⟩ := Option.isSome_iff_exists.mp hkey
  unfold handleAIRequest
  rw [if_neg (not_le.mpr hcred)]
  simp only [hcfg, hk, finalTextOf_fallback result h1 h2 h3]
  rfl

/-- Claim C9 (witness): a fresh-credit ledger with one paid entry, a
tool-calls-only result with no steps text, and the explanatory message
response. -/
theorem claimC9_witness :
    (handleAIRequest (fun _ => none)
        (.ok ⟨[], none, "tool-calls", some 5, some 7⟩) 3
        [⟨0, "gpt-4o", 1, 1, 2, 1⟩]
        ⟨some [], "openai", some "k".data, none, false⟩).1 =
      .json 200 (.success fallbackToolCallMessage ⟨5, 7, 12⟩
        ⟨(trackUsage [⟨0, "gpt-4o", 1, 1, 2, 1⟩] 3 "gpt-4o" 5 7).1.1,
          (trackUsage [⟨0, "gpt-4o", 1, 1, 2, 1⟩] 3 "gpt-4o" 5 7).1.2⟩) ∧
      fallbackToolCallMessage ≠ [] :=
  claimC9 (fun _ => none) 3 [⟨0, "gpt-4o", 1, 1, 2, 1⟩] [] "openai"
    ⟨"gpt-4o", "OPENAI_API_KEY"⟩ (some "k".data) none
    ⟨[], none, "tool-calls", some 5, some 7⟩
    (by norm_num [getCredits, getTotalCost]) rfl rfl rfl (by simp) rfl

/-- Claim C2 (witness): the default-rate fallback applied to a model id
absent from the rate table, alongside a concrete non-negative cost and a
concrete monotone call sequence. -/
theorem claimC2_witness :
    modelCosts "mystery-model" = none ∧
    lookupCosts "mystery-model" = lookupCosts "gpt-4o" ∧
    0 ≤ (trackUsage [] 7 "gpt-4o" 100 200).1.1 ∧
    getTotalCost [] ≤
      getTotalCost (runCalls [] [("gpt-4o", 10, 20), ("never-heard", 1, 2)]) :=
  ⟨rfl, claimC2.2.1 "mystery-model" rfl,
    (claimC2.1 [] 7 "gpt-4o" 100 200).2.2.2.2,
    claimC2.2.2.2 [] [("gpt-4o", 10, 20), ("never-heard", 1, 2)]⟩
